import Mathlib

/-!
The program hls_downloader: a shallow embedding of the playlist parser, the URI helpers,
the segment download worker and one poll cycle of the streaming controller.

Go strings are modelled as lists of characters (`Str`).  Every separator the
program splits on is ASCII, so the byte view and the character view of a
string agree on all operations used here.
-/

namespace HlsDownloader

/-- A Go string. -/
abbrev Str := List Char

deriving instance DecidableEq for Except

/-! ## Fragments of the Go standard library used by the program -/

namespace strings

/-- The Go function `strings.HasPrefix`. -/
def HasPrefix : Str → Str → Bool
  | _, [] => true
  | [], _ :: _ => false
  | c :: s, d :: p => c == d && HasPrefix s p

/-- The Go function `strings.Split(s, sep)` for a one-byte separator: the pieces of `s`
between the occurrences of `sep`; `n` occurrences give `n + 1` pieces. -/
def Split (s : Str) (sep : Char) : List Str :=
  match s with
  | [] => [[]]
  | c :: rest =>
    if c == sep then [] :: Split rest sep
    else
      match Split rest sep with
      | [] => [[c]]
      | piece :: pieces => (c :: piece) :: pieces

/-- The Go function `strings.Join(elems, sep)` for a one-byte separator. -/
def Join : List Str → Char → Str
  | [], _ => []
  | [a], _ => a
  | a :: b :: rest, sep => a ++ sep :: Join (b :: rest) sep

end strings

/-- The Go slice assignment `slice[len(slice)-1] = x` (a no-op model on the empty slice,
which `strings.Split` never returns). -/
def setLast (x : Str) : List Str → List Str
  | [] => []
  | [_] => [x]
  | a :: b :: rest => a :: setLast x (b :: rest)

namespace filepath

/-- Removes the trailing slashes of a path (the first loop of `filepath.Base`). -/
def stripTrailingSlashes (path : Str) : Str :=
  (path.reverse.dropWhile (fun c => c == '/')).reverse

/-- The part of a path after its last slash (the second loop of `filepath.Base`). -/
def lastElement (path : Str) : Str :=
  (path.reverse.takeWhile (fun c => c != '/')).reverse

/-- The Go function `filepath.Base` on a system whose separator is `/` and which has no
volume names. -/
def Base (path : Str) : Str :=
  if path = [] then ['.']
  else
    let p := lastElement (stripTrailingSlashes path)
    if p = [] then ['/'] else p

end filepath

namespace strconv

/-- The decimal digit for a number below ten. -/
def digitChar (d : Nat) : Char := Char.ofNat (48 + d)

/-- Decimal digits of a natural number, most significant first, with a recursion budget. -/
def natDigits : Nat → Nat → Str
  | 0, _ => []
  | fuel + 1, n => if n < 10 then [digitChar n] else natDigits fuel (n / 10) ++ [digitChar (n % 10)]

/-- The Go function `strconv.Itoa`, which is also how `fmt` prints an `int` under `%v` and `%d`. -/
def Itoa (n : Int) : Str :=
  if n < 0 then '-' :: natDigits (n.natAbs + 1) n.natAbs else natDigits (n.natAbs + 1) n.natAbs

end strconv

namespace url

/-- The escaping modes of `net/url` (`encodePath`, `encodePathSegment`, ...). -/
inductive encoding
  | encodePath
  | encodePathSegment
  | encodeHost
  | encodeZone
  | encodeUserPassword
  | encodeQueryComponent
  | encodeFragment
  deriving DecidableEq, Repr

open encoding

/-- The type `url.Userinfo`. -/
structure Userinfo where
  username : Str
  password : Str
  passwordSet : Bool
  deriving DecidableEq, Repr

/-- The type `url.URL`. -/
structure URL where
  Scheme : Str := []
  Opaque : Str := []
  User : Option Userinfo := none
  Host : Str := []
  Path : Str := []
  RawPath : Str := []
  OmitHost : Bool := false
  ForceQuery : Bool := false
  RawQuery : Str := []
  Fragment : Str := []
  RawFragment : Str := []
  deriving DecidableEq, Repr

/-- Whether a byte lies between two bounds, both included. -/
def between (lo hi c : Char) : Bool := decide (lo.toNat ≤ c.toNat) && decide (c.toNat ≤ hi.toNat)

/-- ASCII letters and digits. -/
def isAlnum (c : Char) : Bool := between 'a' 'z' c || between 'A' 'Z' c || between '0' '9' c

/-- The function `ishex` of `net/url`. -/
def ishex (c : Char) : Bool := between '0' '9' c || between 'a' 'f' c || between 'A' 'F' c

/-- The function `unhex` of `net/url`. -/
def unhex (c : Char) : Nat :=
  if between '0' '9' c then c.toNat - 48
  else if between 'a' 'f' c then c.toNat - 97 + 10
  else if between 'A' 'F' c then c.toNat - 65 + 10
  else 0

/-- The function `shouldEscape` of `net/url`. -/
def shouldEscape (c : Char) (mode : encoding) : Bool :=
  if isAlnum c then false
  else if (mode = encodeHost ∨ mode = encodeZone) ∧
      c ∈ ['!', '$', '&', Char.ofNat 39, '(', ')', '*', '+', ',', ';', '=', ':', '[', ']', '<', '>', Char.ofNat 34] then false
  else if c ∈ ['-', '_', '.', '~'] then false
  else if c ∈ ['$', '&', '+', ',', '/', ':', ';', '=', '?', '@'] ∧
      mode ∈ [encodePath, encodePathSegment, encodeUserPassword, encodeQueryComponent, encodeFragment] then
    match mode with
    | encodePath => c == '?'
    | encodePathSegment => c == '/' || c == ';' || c == ',' || c == '?'
    | encodeUserPassword => c == '@' || c == '/' || c == '?' || c == ':'
    | encodeQueryComponent => true
    | _ => false
  else if mode = encodeFragment ∧ c ∈ ['!', '(', ')', '*'] then false
  else true

/-- The function `unescape` of `net/url`; an error carries the offending text. -/
def unescape (mode : encoding) : Str → Except Str Str
  | [] => .ok []
  | '%' :: rest =>
    match rest with
    | a :: b :: tail =>
      if !ishex a || !ishex b then .error ('%' :: rest.take 2)
      else if mode = encodeHost ∧ unhex a < 8 ∧ ¬ (a = '2' ∧ b = '5') then .error ['%', a, b]
      else if mode = encodeZone ∧ ¬ (a = '2' ∧ b = '5') ∧ unhex a * 16 + unhex b ≠ 32 ∧
          shouldEscape (Char.ofNat (unhex a * 16 + unhex b)) encodeHost then .error ['%', a, b]
      else
        match unescape mode tail with
        | .error e => .error e
        | .ok t => .ok (Char.ofNat (unhex a * 16 + unhex b) :: t)
    | _ => .error ('%' :: rest)
  | c :: rest =>
    if (mode = encodeHost ∨ mode = encodeZone) ∧ c.toNat < 128 ∧ shouldEscape c encodeHost then
      .error [c]
    else
      match unescape mode rest with
      | .error e => .error e
      | .ok t => .ok ((if c = '+' ∧ mode = encodeQueryComponent then ' ' else c) :: t)

/-- The upper-case hexadecimal digit of a number below sixteen. -/
def upperhex (n : Nat) : Char := if n < 10 then Char.ofNat (48 + n) else Char.ofNat (55 + n)

/-- The function `escape` of `net/url`. -/
def escape (mode : encoding) : Str → Str
  | [] => []
  | c :: rest =>
    if c = ' ' ∧ mode = encodeQueryComponent then '+' :: escape mode rest
    else if shouldEscape c mode then
      '%' :: upperhex (c.toNat / 16 % 16) :: upperhex (c.toNat % 16) :: escape mode rest
    else c :: escape mode rest

/-- The function `getScheme` of `net/url`: the scheme and the rest, with the index of the
byte under inspection. -/
def getSchemeAux (rawURL : Str) : Nat → Str → Except Str (Str × Str)
  | _, [] => .ok ([], rawURL)
  | i, c :: rest =>
    if between 'a' 'z' c || between 'A' 'Z' c then getSchemeAux rawURL (i + 1) rest
    else if between '0' '9' c || c == '+' || c == '-' || c == '.' then
      if i = 0 then .ok ([], rawURL) else getSchemeAux rawURL (i + 1) rest
    else if c == ':' then
      if i = 0 then .error "missing protocol scheme".toList else .ok (rawURL.take i, rest)
    else .ok ([], rawURL)

/-- The function `getScheme` of `net/url`. -/
def getScheme (rawURL : Str) : Except Str (Str × Str) := getSchemeAux rawURL 0 rawURL

/-- The Go function `strings.Cut` for a one-byte separator: the text before the first
separator, the text after it, and whether the separator occurs. -/
def cut (sep : Char) : Str → Str × Str × Bool
  | [] => ([], [], false)
  | c :: rest =>
    if c == sep then ([], rest, true)
    else
      let r := cut sep rest
      (c :: r.1, r.2.1, r.2.2)

/-- Splits at the last occurrence of a byte (`strings.LastIndex` with the two slices
`s[:i]` and `s[i+1:]`), or nothing when the byte does not occur. -/
def cutLast (sep : Char) (s : Str) : Option (Str × Str) :=
  let r := cut sep s.reverse
  if r.2.2 then some (r.2.1.reverse, r.1.reverse) else none

/-- The Go function `strings.Index`: where a text first occurs in another. -/
def index (sub : Str) : Str → Option Nat
  | [] => if sub = [] then some 0 else none
  | c :: rest =>
    if strings.HasPrefix (c :: rest) sub then some 0
    else (index sub rest).map (· + 1)

/-- The function `validOptionalPort` of `net/url`. -/
def validOptionalPort : Str → Bool
  | [] => true
  | c :: digits => c == ':' && digits.all (fun b => between '0' '9' b)

/-- The function `validUserinfo` of `net/url`. -/
def validUserinfo (s : Str) : Bool :=
  s.all (fun r => isAlnum r ||
    r ∈ ['-', '.', '_', ':', '~', '!', '$', '&', Char.ofNat 39, '(', ')', '*', '+', ',', ';', '=', '%', '@'])

/-- The function `stringContainsCTLByte` of `net/url`. -/
def stringContainsCTLByte (s : Str) : Bool := s.any (fun b => decide (b.toNat < 32) || b.toNat == 127)

/-- The function `parseHost` of `net/url`. -/
def parseHost (host : Str) : Except Str Str :=
  if strings.HasPrefix host ['['] then
    match cutLast ']' host with
    | none => .error "missing ']' in host".toList
    | some (beforeBracket, colonPort) =>
      if !validOptionalPort colonPort then .error "invalid port after host".toList
      else
        match index ['%', '2', '5'] beforeBracket with
        | some zone =>
          match unescape encodeHost (host.take zone) with
          | .error e => .error e
          | .ok host1 =>
            match unescape encodeZone ((host.take beforeBracket.length).drop zone) with
            | .error e => .error e
            | .ok host2 =>
              match unescape encodeHost (host.drop beforeBracket.length) with
              | .error e => .error e
              | .ok host3 => .ok (host1 ++ host2 ++ host3)
        | none => unescape encodeHost host
  else
    match cutLast ':' host with
    | some (_, port) =>
      if !validOptionalPort (':' :: port) then .error "invalid port after host".toList
      else unescape encodeHost host
    | none => unescape encodeHost host

/-- The function `parseAuthority` of `net/url`. -/
def parseAuthority (authority : Str) : Except Str (Option Userinfo × Str) :=
  match cutLast '@' authority with
  | none =>
    match parseHost authority with
    | .error e => .error e
    | .ok host => .ok (none, host)
  | some (userinfo, hostport) =>
    match parseHost hostport with
    | .error e => .error e
    | .ok host =>
      if !validUserinfo userinfo then .error "net/url: invalid userinfo".toList
      else if !userinfo.contains ':' then
        match unescape encodeUserPassword userinfo with
        | .error e => .error e
        | .ok name => .ok (some ⟨name, [], false⟩, host)
      else
        match unescape encodeUserPassword (cut ':' userinfo).1 with
        | .error e => .error e
        | .ok name =>
          match unescape encodeUserPassword (cut ':' userinfo).2.1 with
          | .error e => .error e
          | .ok pass => .ok (some ⟨name, pass, true⟩, host)

/-- The method `URL.setPath` of `net/url`. -/
def URL.setPath (u : URL) (p : Str) : Except Str URL :=
  match unescape encodePath p with
  | .error e => .error e
  | .ok path =>
    .ok { u with Path := path, RawPath := if p = escape encodePath path then [] else p }

/-- The method `URL.setFragment` of `net/url`. -/
def URL.setFragment (u : URL) (f : Str) : Except Str URL :=
  match unescape encodeFragment f with
  | .error e => .error e
  | .ok frag =>
    .ok { u with Fragment := frag, RawFragment := if f = escape encodeFragment frag then [] else f }

/-- The function `parse` of `net/url`, called with `viaRequest = false`. -/
def parse (rawURL : Str) : Except Str URL :=
  if stringContainsCTLByte rawURL then .error "net/url: invalid control character in URL".toList
  else if rawURL = ['*'] then .ok { Path := ['*'] }
  else
    match getScheme rawURL with
    | .error e => .error e
    | .ok (scheme0, rest0) =>
      let scheme := scheme0.map Char.toLower
      let forceQuery : Bool := rest0.getLast? = some '?' && rest0.count '?' == 1
      let rest1 := if forceQuery then rest0.dropLast else (cut '?' rest0).1
      let rawQuery := if forceQuery then [] else (cut '?' rest0).2.1
      let u : URL := { Scheme := scheme, ForceQuery := forceQuery, RawQuery := rawQuery }
      if !strings.HasPrefix rest1 ['/'] && scheme ≠ [] then .ok { u with Opaque := rest1 }
      else if !strings.HasPrefix rest1 ['/'] && (cut '/' rest1).1.contains ':' then
        .error "first path segment in URL cannot contain colon".toList
      else if (scheme ≠ [] || !strings.HasPrefix rest1 ['/', '/', '/']) &&
          strings.HasPrefix rest1 ['/', '/'] then
        let authority := (cut '/' (rest1.drop 2)).1
        let rest2 := (rest1.drop 2).drop authority.length
        match parseAuthority authority with
        | .error e => .error e
        | .ok (user, host) => URL.setPath { u with User := user, Host := host } rest2
      else if scheme ≠ [] && strings.HasPrefix rest1 ['/'] then
        URL.setPath { u with OmitHost := true } rest1
      else URL.setPath u rest1

/-- The Go function `url.Parse`. -/
def Parse (rawURL : Str) : Except Str URL :=
  let c := cut '#' rawURL
  match parse c.1 with
  | .error e => .error e
  | .ok u => if c.2.1 = [] then .ok u else URL.setFragment u c.2.1

/-- The method `URL.IsAbs`. -/
def URL.IsAbs (u : URL) : Bool := u.Scheme ≠ []

/-- The function `validEncoded` of `net/url`. -/
def validEncoded (s : Str) (mode : encoding) : Bool :=
  s.all (fun c =>
    c ∈ ['!', '$', '&', Char.ofNat 39, '(', ')', '*', '+', ',', ';', '=', ':', '@', '[', ']', '%'] ||
      !shouldEscape c mode)

/-- The method `URL.EscapedPath`. -/
def URL.EscapedPath (u : URL) : Str :=
  if u.RawPath ≠ [] ∧ validEncoded u.RawPath encodePath ∧
      unescape encodePath u.RawPath = .ok u.Path then u.RawPath
  else if u.Path = ['*'] then ['*']
  else escape encodePath u.Path

/-- The method `URL.EscapedFragment`. -/
def URL.EscapedFragment (u : URL) : Str :=
  if u.RawFragment ≠ [] ∧ validEncoded u.RawFragment encodeFragment ∧
      unescape encodeFragment u.RawFragment = .ok u.Fragment then u.RawFragment
  else escape encodeFragment u.Fragment

/-- The method `Userinfo.String`. -/
def Userinfo.String (ui : Userinfo) : Str :=
  escape encodeUserPassword ui.username ++
    (if ui.passwordSet then ':' :: escape encodeUserPassword ui.password else [])

/-- The method `URL.String`. -/
def URL.String (u : URL) : Str :=
  let schemePart := if u.Scheme ≠ [] then u.Scheme ++ [':'] else []
  let body :=
    if u.Opaque ≠ [] then u.Opaque
    else
      let authority :=
        if u.Scheme ≠ [] ∨ u.Host ≠ [] ∨ u.User ≠ none then
          if u.OmitHost ∧ u.Host = [] ∧ u.User = none then []
          else
            (if u.Host ≠ [] ∨ u.Path ≠ [] ∨ u.User ≠ none then ['/', '/'] else []) ++
            (match u.User with
              | some ui => ui.String ++ ['@']
              | none => []) ++
            (if u.Host ≠ [] then escape encodeHost u.Host else [])
        else []
      let path := u.EscapedPath
      let slash := if path ≠ [] ∧ path.head? ≠ some '/' ∧ u.Host ≠ [] then ['/'] else []
      let dot :=
        if schemePart ++ authority ++ slash = [] ∧ (cut '/' path).1.contains ':' then ['.', '/']
        else []
      authority ++ slash ++ dot ++ path
  let query := if u.ForceQuery ∨ u.RawQuery ≠ [] then '?' :: u.RawQuery else []
  let fragment := if u.Fragment ≠ [] then '#' :: u.EscapedFragment else []
  schemePart ++ body ++ query ++ fragment

end url

namespace bufio

/-- The function `dropCR` of `bufio`: drops one trailing carriage return. -/
def dropCR (data : Str) : Str :=
  if data.getLast? = some '\r' then data.dropLast else data

/-- The lines a `bufio.Scanner` with the default split function `ScanLines` yields for a
text: the pieces between line feeds, each without its trailing carriage return; text after
the last line feed is a line only if it is not empty.  (A scanner also stops at a line
longer than `bufio.MaxScanTokenSize`; such texts are outside this model.) -/
def scanLines (text : Str) : List Str :=
  let pieces := strings.Split text '\n'
  (if pieces.getLast? = some [] then pieces.dropLast else pieces).map dropCR

end bufio

/-! ## Errors -/

/-- Go `error` values as the program builds and inspects them.  The two sentinels are the
package variables of `segment_downloader.go`; `urlError` is a `*url.Error`, the only error
type `net/http` and `url.Parse` hand to this program; `wrapError` is what `xerrors.Errorf`
builds from a `%w` verb, `errorString` what it builds without one (and what `xerrors.New`
and the other libraries return). -/
inductive GoError
  | ErrSegmentDownloadTimeout
  | ErrSegmentDownloadClientFactor
  | urlError (timeout : Bool) (msg : Str)
  | errorString (msg : Str)
  | wrapError (msg : Str) (err : GoError)
  deriving DecidableEq, Repr

namespace GoError

/-- The method `Error()`: the text of an error. -/
def Error : GoError → Str
  | ErrSegmentDownloadTimeout => "segment download timeout".toList
  | ErrSegmentDownloadClientFactor => "segment download client factor".toList
  | urlError _ msg => msg
  | errorString msg => msg
  | wrapError msg err => msg ++ Error err

end GoError

namespace errors

/-- The Go function `errors.Is`: the target is the error itself or one it wraps. -/
def Is : GoError → GoError → Bool
  | .wrapError msg err, target => decide (GoError.wrapError msg err = target) || Is err target
  | err, target => decide (err = target)

/-- The Go call `errors.As(err, &urlErr)` with `urlErr` a `*url.Error`: the first such
error in the chain, given by what its `Timeout()` method answers. -/
def AsURLError : GoError → Option Bool
  | .urlError timeout _ => some timeout
  | .wrapError _ err => AsURLError err
  | _ => none

end errors

/-! ## Machine integers -/

/-- The value a Go `int` (64 bits, two's complement) holds after an arithmetic result. -/
def wrapInt (x : Int) : Int := (x + 9223372036854775808) % 18446744073709551616 - 9223372036854775808

/-- Whether an integer is a value of the Go type `int`. -/
def isInt (x : Int) : Prop := -9223372036854775808 ≤ x ∧ x < 9223372036854775808

instance (x : Int) : Decidable (isInt x) := by unfold isInt; infer_instance

namespace strconv

/-- The digit loop of `strconv.ParseUint` in base ten with 64 bits: a syntax error at a
byte that is no digit, a range error once the value passes `2^64 - 1` (the first failure
met from the left decides), otherwise the value. -/
def parseUintLoop : Nat → Str → Except GoError Nat
  | n, [] => .ok n
  | n, c :: rest =>
    if !url.between '0' '9' c then .error (.errorString "invalid syntax".toList)
    else if n * 10 + (c.toNat - 48) ≥ 18446744073709551616 then
      .error (.errorString "value out of range".toList)
    else parseUintLoop (n * 10 + (c.toNat - 48)) rest

/-- The Go function `strconv.Atoi` with a 64-bit `int`: an optional sign, then one or
more decimal digits, the value within the range of `int`. -/
def Atoi (s : Str) : Except GoError Int :=
  let neg : Bool := s.head? = some '-'
  let digits := if s.head? = some '-' ∨ s.head? = some '+' then s.tail else s
  if digits = [] then .error (.errorString "invalid syntax".toList)
  else
    match parseUintLoop 0 digits with
    | .error e => .error e
    | .ok un =>
      if !neg ∧ un ≥ 9223372036854775808 then .error (.errorString "value out of range".toList)
      else if neg ∧ un > 9223372036854775808 then .error (.errorString "value out of range".toList)
      else .ok (if neg then -(un : Int) else (un : Int))

end strconv

/-! ## The data model (`app.go`, `playlist_parser.go`) -/

/-- The struct `segment`.  The type `float64` of the duration is a parameter `F`. -/
structure segment (F : Type) where
  duration : F
  uri : Str
  no : Int
  deriving DecidableEq, Repr

/-- The struct `playlist`; the field `end` is written `end_`. -/
structure playlist (F : Type) where
  sequence : Int
  targetDuration : Int
  end_ : Bool
  segments : List (segment F)
  payload : Str
  deriving DecidableEq, Repr

/-- The struct `downloadResult`. -/
structure downloadResult where
  no : Int
  err : Option GoError
  deriving DecidableEq, Repr

/-! ## `app.go`: file names -/

/-- The function `uri2basename`. -/
def uri2basename (uri : Str) : Except GoError Str :=
  match url.Parse uri with
  | .error e => .error (.wrapError "url.Parse failed: ".toList (.urlError false e))
  | .ok u => .ok (filepath.Base u.Path)

/-- The function `uri2playlistPath`. -/
def uri2playlistPath (uri : Str) (outputDir : Str) (count : Int) : Except GoError Str :=
  match uri2basename uri with
  | .error e => .error e
  | .ok basename =>
    match strings.Split basename '.' with
    | [stem, ext] => .ok (outputDir ++ '/' :: stem ++ '_' :: strconv.Itoa count ++ '.' :: ext)
    | _ => .error (.errorString "parse `.` dot error".toList)

/-- The function `uri2SegmentPath` of `segment_downloader.go`. -/
def uri2SegmentPath (uri outputDir : Str) : Except GoError Str :=
  match uri2basename uri with
  | .error e => .error e
  | .ok basename => .ok (outputDir ++ '/' :: basename)

/-! ## `playlist_parser.go` -/

/-- The body of the loop of `playlist.modify` for one segment whose URI has been parsed. -/
def modifySegment {F : Type} (playlistURI : url.URL) (s : segment F) (segmentURI : url.URL) : segment F :=
  if !segmentURI.IsAbs then
    let slice := strings.Split playlistURI.Path '/'
    let absSegmentURI : url.URL :=
      { playlistURI with Path := strings.Join (setLast segmentURI.Path slice) '/' }
    { s with uri := absSegmentURI.String }
  else s

/-- The loop of `playlist.modify` over the segments: the segments as the loop leaves them
(it rewrites them in place and stops at the first URI that does not parse) and the error. -/
def modifySegments {F : Type} (playlistURI : url.URL) : List (segment F) → List (segment F) × Option GoError
  | [] => ([], none)
  | s :: rest =>
    match url.Parse s.uri with
    | .error e => (s :: rest, some (.wrapError "url.Parse failed: ".toList (.urlError false e)))
    | .ok segmentURI =>
      let r := modifySegments playlistURI rest
      (modifySegment playlistURI s segmentURI :: r.1, r.2)

/-- The method `playlist.modify`: the playlist after the call and the error it returns. -/
def playlist.modify {F : Type} (p : playlist F) (playlistURI : url.URL) : playlist F × Option GoError :=
  let r := modifySegments playlistURI p.segments
  ({ p with segments := r.1 }, r.2)

/-- The local variables of `playlistParser.parse2nd`. -/
structure parseVars (F : Type) where
  mediaSequence : Int
  targetDuration : Int
  no : Int
  segmentDuration : F
  end_ : Bool
  segments : List (segment F)
  deriving DecidableEq, Repr

/-- How one pass through the loop body of `parse2nd` ends. -/
inductive lineOutcome (F : Type)
  | next (v : parseVars F)
  | break_ (v : parseVars F)
  | fail (e : GoError)

/-- The error `parse2nd` returns for a line it rejects without an underlying error. -/
def invalidPlaylist (line : Str) : GoError := .errorString ("invalid playlist, ".toList ++ line)

/-- The error `parse2nd` returns for a line whose number does not parse. -/
def invalidPlaylistWith (line : Str) (e : GoError) : GoError :=
  .wrapError ("invalid playlist, ".toList ++ line ++ " :".toList) e

/-- The body of the loop of `parse2nd` for one line.  `strconv.ParseFloat(_, 64)` is the
parameter `parseFloat`. -/
def parse2ndLine {F : Type} (parseFloat : Str → Except GoError F) (v : parseVars F) (line : Str) :
    lineOutcome F :=
  if strings.HasPrefix line "#EXT-X-MEDIA-SEQUENCE".toList then
    match strings.Split line ':' with
    | [_, value] =>
      match strconv.Atoi value with
      | .error e => .fail (invalidPlaylistWith line e)
      | .ok n => .next { v with mediaSequence := n, no := n }
    | _ => .fail (invalidPlaylist line)
  else if strings.HasPrefix line "#EXT-X-TARGETDURATION".toList then
    match strings.Split line ':' with
    | [_, value] =>
      match strconv.Atoi value with
      | .error e => .fail (invalidPlaylistWith line e)
      | .ok n => .next { v with targetDuration := n }
    | _ => .fail (invalidPlaylist line)
  else if strings.HasPrefix line "#EXTINF".toList then
    match strings.Split line ':' with
    | [_, value] =>
      match strings.Split value ',' with
      | [dur, _] =>
        match parseFloat dur with
        | .error e => .fail (invalidPlaylistWith line e)
        | .ok d => .next { v with segmentDuration := d }
      | _ => .fail (invalidPlaylist line)
    | _ => .fail (invalidPlaylist line)
  else if strings.HasPrefix line "#EXT-X-ENDLIST".toList then .break_ v
  else if !strings.HasPrefix line "#".toList then
    .next { v with
      segments := v.segments ++ [{ duration := v.segmentDuration, uri := line, no := v.no }],
      no := wrapInt (v.no + 1) }
  else .next v

/-- The loop `for sc.Scan()` of `parse2nd` over the lines the scanner yields. -/
def parse2ndLoop {F : Type} (parseFloat : Str → Except GoError F) :
    parseVars F → List Str → Except GoError (parseVars F)
  | v, [] => .ok v
  | v, line :: rest =>
    match parse2ndLine parseFloat v line with
    | .fail e => .error e
    | .break_ v1 => .ok v1
    | .next v1 => parse2ndLoop parseFloat v1 rest

/-- The method `playlistParser.parse2nd`.  The scanner is the list of the lines it yields;
`zero` is the `float64` zero, the initial value of `segmentDuration`. -/
def parse2nd {F : Type} (parseFloat : Str → Except GoError F) (zero : F) (lines : List Str) :
    Except GoError (playlist F) :=
  match parse2ndLoop parseFloat
      { mediaSequence := 0, targetDuration := 0, no := 0, segmentDuration := zero,
        end_ := false, segments := [] } lines with
  | .error e => .error e
  | .ok v =>
    if v.segments.length = 0 then .error (.errorString "no segment".toList)
    else .ok { sequence := v.mediaSequence, targetDuration := v.targetDuration, end_ := v.end_,
               segments := v.segments, payload := [] }

/-! ## `app.go`: the HTTP client -/

/-- What `httpClient.Do` gives for a request: a `*url.Error` whose `Timeout()` holds, any
other `*url.Error`, or a response, of which the status code, the status text and the bytes of
the body are kept. -/
inductive doResult
  | timeout (msg : Str)
  | transportError (msg : Str)
  | response (statusCode : Int) (status : Str) (body : Str)
  deriving DecidableEq, Repr

/-- The fields of `http.Response` the program reads. -/
structure Response where
  StatusCode : Int
  Status : Str
  Body : Str
  deriving DecidableEq, Repr

/-- The pair `(*http.Response, error)` that `client.get` returns: with an error the response
may be nil, without one it is present. -/
inductive getResult
  | failed (resp : Option Response) (err : GoError)
  | ok (resp : Response)
  deriving DecidableEq, Repr

/-- The method `client.get`.  `http.NewRequest` fails exactly when `url.Parse` rejects the
URI; `net` is what `httpClient.Do` then gives. -/
def client.get (uri : Str) (net : doResult) : getResult :=
  match url.Parse uri with
  | .error e => .failed none (.wrapError "http.NewRequest failed : ".toList (.urlError false e))
  | .ok _ =>
    match net with
    | .timeout msg => .failed none (.wrapError "httpClient.Do failed : ".toList (.urlError true msg))
    | .transportError msg =>
      .failed none (.wrapError "httpClient.Do failed : ".toList (.urlError false msg))
    | .response statusCode status body =>
      if statusCode < 200 ∨ statusCode ≥ 400 then
        .failed (some ⟨statusCode, status, body⟩) (.errorString ("status code ".toList ++ status))
      else .ok ⟨statusCode, status, body⟩

/-! ## `segment_downloader.go`: the worker -/

/-- What the outside world does while the worker handles one segment: the result of the
request, the error of `os.Create` if any, and the error of `io.Copy` if any together with the
bytes that reached the file before it. -/
structure segmentEnv where
  net : doResult
  create : Option GoError
  copy : Option (GoError × Str)
  deriving DecidableEq, Repr

/-- What happens to files during one pass of the worker loop. -/
inductive fileEvent
  | create (path : Str)
  | write (path : Str) (bytes : Str)
  deriving DecidableEq, Repr

/-- One pass of the loop of `segmentDownloader.Run` after a segment was received: the calls of
`delegate.onDownload` in order, the file events in order, the value of
`consecutiveErrCount` when the pass ends, and whether it ends by `return` (otherwise the loop
goes to its next pass). -/
structure iteration where
  reports : List downloadResult
  files : List fileEvent
  consecutiveErrCount : Int
  returns : Bool
  deriving DecidableEq, Repr

/-- The constant `errMax` of `segmentDownloader.Run`. -/
def errMax : Int := 5

/-- The statements of `Run` from line 88: the report of a failed request, then `return`. -/
def getFailed {F : Type} (seg : segment F) (consecutiveErrCount : Int) (err : GoError) : iteration :=
  { reports := [⟨seg.no, some (.wrapError "get failed +".toList err)⟩], files := [],
    consecutiveErrCount := consecutiveErrCount, returns := true }

/-- The two statements `d.delegate.onDownload(seg.no, xerrors.Errorf(...))` and
`consecutiveErrCount++` of a failed persistence step, on the reports made so far and the
counter. -/
def reportFailure {F : Type} (seg : segment F) (st : List downloadResult × Int) (what : Str)
    (e : GoError) : List downloadResult × Int :=
  (st.1 ++ [⟨seg.no, some (.wrapError (what ++ ", seg.uri:".toList ++ seg.uri ++ ", +".toList) e)⟩],
    st.2 + 1)

/-- The statements of `Run` after a successful request (lines 92 to 110): path, file, copy,
each failure reported and counted, none followed by `continue`; then the counter is set to
zero and success is reported. -/
def persist {F : Type} (outputDir : Str) (seg : segment F) (consecutiveErrCount : Int)
    (env : segmentEnv) (resp : Response) : iteration :=
  let path := uri2SegmentPath seg.uri outputDir
  let basename := match path with
    | .ok b => b
    | .error _ => []
  let st1 := match path with
    | .ok _ => ([], consecutiveErrCount)
    | .error e => reportFailure seg ([], consecutiveErrCount) "uri2basename failed".toList e
  let st2 := match env.create with
    | none => st1
    | some e => reportFailure seg st1 "os.Create failed".toList e
  let st3 := match env.copy with
    | none => st2
    | some (e, _) => reportFailure seg st2 "os.Copy failed".toList e
  let files : List fileEvent := match env.create with
    | some _ => []
    | none =>
      match env.copy with
      | none => [.create basename, .write basename resp.Body]
      | some (_, written) => [.create basename, .write basename written]
  { reports := st3.1 ++ [⟨seg.no, none⟩], files := files, consecutiveErrCount := 0,
    returns := false }

/-- The body of the loop of `segmentDownloader.Run` for a segment received from `inputChan`. -/
def handleSegment {F : Type} (outputDir : Str) (consecutiveErrCount : Int) (seg : segment F)
    (env : segmentEnv) : iteration :=
  match client.get seg.uri env.net with
  | .failed resp err =>
    match errors.AsURLError err with
    | some true =>
      { reports := [⟨seg.no, some .ErrSegmentDownloadTimeout⟩], files := [],
        consecutiveErrCount := consecutiveErrCount + 1, returns := false }
    | some false => getFailed seg consecutiveErrCount err
    | none =>
      match resp with
      | none => getFailed seg consecutiveErrCount err
      | some r =>
        if r.StatusCode = 401 ∨ r.StatusCode = 403 then
          { reports := [⟨seg.no, some (.errorString ("get failed ".toList ++ r.Status))⟩], files := [],
            consecutiveErrCount := consecutiveErrCount, returns := true }
        else if (r.StatusCode ≥ 404 ∧ r.StatusCode ≤ 499) ∨ r.StatusCode = 400 ∨ r.StatusCode = 402 then
          { reports := [⟨seg.no, some (.wrapError ("statusCode: ".toList ++ r.Status ++ " : ".toList)
              .ErrSegmentDownloadClientFactor)⟩], files := [],
            consecutiveErrCount := consecutiveErrCount + 1, returns := false }
        else if r.StatusCode ≥ 500 ∧ r.StatusCode ≤ 599 then
          { reports := [⟨seg.no, some (.errorString
              ("get failed ".toList ++ r.Status ++ ", ".toList ++ r.Body))⟩], files := [],
            consecutiveErrCount := consecutiveErrCount, returns := true }
        else getFailed seg consecutiveErrCount err
  | .ok resp => persist outputDir seg consecutiveErrCount env resp

/-- The loop of `segmentDownloader.Run` from a value of `consecutiveErrCount`.  The queue is
what `inputChan` delivers before it is closed, each segment with what the outside world does
for it; the result lists the passes made, one for each segment received. -/
def runLoop {F : Type} (outputDir : Str) (consecutiveErrCount : Int)
    (queue : List (segment F × segmentEnv)) : List iteration :=
  if consecutiveErrCount > errMax then []
  else
    match queue with
    | [] => []
    | (seg, env) :: rest =>
      let it := handleSegment outputDir consecutiveErrCount seg env
      it :: (if it.returns then [] else runLoop outputDir it.consecutiveErrCount rest)

/-- The method `segmentDownloader.Run`. -/
def segmentDownloader.Run {F : Type} (outputDir : Str) (queue : List (segment F × segmentEnv)) :
    List iteration :=
  runLoop outputDir 0 queue

/-! ## `app.go`: one poll cycle of `streamingController.Run` -/

/-- The variables of the loop of `streamingController.Run` that outlive a cycle.  A
`*playlist` is the index of the playlist in `heap`, the list of the playlists allocated so
far; `prevPlaylist` is nil (`none`) or such a pointer. -/
structure controllerState (F : Type) where
  count : Int
  prevPlaylist : Option Nat
  heap : List (playlist F)
  deriving DecidableEq, Repr

/-- What the outside world does during one poll cycle: the request for the manifest, given
by the lines the scanner reads from the body, then `os.CreateTemp`, `os.Rename` and the write
to `timing_info.txt`. -/
structure cycleEnv where
  get : Except GoError (List Str)
  createTemp : Except GoError Str
  rename : Option GoError
  write : Option GoError

/-- What a poll cycle does that others can see. -/
inductive effect (F : Type)
  | rename (oldpath newpath : Str)
  | writeTiming
  | send (s : segment F)
  | newTimer (nanoseconds : Int)
  deriving DecidableEq, Repr

/-- How a poll cycle ends: at `continue` or at the end of the loop body, with the state for
the next cycle, or by `return err`. -/
inductive cycleOutcome (F : Type)
  | next (st : controllerState F) (effects : List (effect F))
  | return_ (err : GoError) (effects : List (effect F))
  deriving DecidableEq, Repr

/-- The Go expression `time.Second * time.Duration(targetDuration)`, in nanoseconds. -/
def secondsDuration (targetDuration : Int) : Int := wrapInt (1000000000 * targetDuration)

/-- The body of the loop of `streamingController.Run` from the request for the manifest on
(after the `select` has seen the timer fire, or in the first cycle).  `parse2nd` allocates
the playlist it returns, so `newPlaylist` is a pointer no earlier pointer equals; `modify`
writes through it.  The temporary files and their deferred removal are left out. -/
def pollCycle {F : Type} (parseFloat : Str → Except GoError F) (zero : F) (outputDir : Str)
    (uri : url.URL) (st : controllerState F) (env : cycleEnv) : cycleOutcome F :=
  match env.get with
  | .error e => .return_ (.wrapError "cli.get failed: ".toList e) []
  | .ok lines =>
    match env.createTemp with
    | .error e => .return_ (.wrapError "os.CreateTemp failed : ".toList e) []
    | .ok tmp =>
      match parse2nd parseFloat zero lines with
      | .error e => .return_ e []
      | .ok parsed =>
        let newPlaylist := st.heap.length
        let modified := parsed.modify uri
        let heap := st.heap ++ [modified.1]
        match modified.2 with
        | some e => .return_ e []
        | none =>
          let nextDuration := secondsDuration modified.1.targetDuration
          if st.prevPlaylist ≠ none ∧ some newPlaylist = st.prevPlaylist then
            .next { st with heap := heap } [.newTimer nextDuration]
          else
            let nextDuration := if st.prevPlaylist ≠ none then nextDuration.tdiv 2 else nextDuration
            match uri2playlistPath uri.String outputDir st.count with
            | .error e => .return_ e []
            | .ok u =>
              match env.rename with
              | some e => .return_ (.wrapError "os.Rename failed : ".toList e) []
              | none =>
                match env.write with
                | some e => .return_ (.wrapError "Write failed: ".toList e) [.rename tmp u]
                | none =>
                  .next { count := wrapInt (st.count + 1), prevPlaylist := some newPlaylist, heap := heap }
                    ([.rename tmp u, .writeTiming] ++ modified.1.segments.map .send ++
                      [.newTimer nextDuration])

/-! ## Definitions used to state the properties -/

/-- The URL that `url.Parse` returns for `http://h/live/v1/playlist.m3u8`. -/
def examplePlaylistURI : url.URL :=
  { Scheme := "http".toList, Host := "h".toList, Path := "/live/v1/playlist.m3u8".toList }

/-- The part of a path up to and including its last slash; empty when it has none. -/
def dirPart : Str → Str
  | [] => []
  | c :: rest => if '/' ∈ c :: rest then c :: dirPart rest else []

/-- A playlist with an absolute and a relative segment URI. -/
def examplePlaylist : playlist Unit :=
  { sequence := 5, targetDuration := 6, end_ := false, payload := [],
    segments := [{ duration := (), uri := "http://cdn/x.ts".toList, no := 5 },
                 { duration := (), uri := "seg1.ts".toList, no := 6 }] }

/-- The value of a digit string read after `acc`. -/
def digitsValue (acc : Nat) (ds : Str) : Nat := ds.foldl (fun n c => n * 10 + (c.toNat - 48)) acc

/-- One `#EXTINF:<duration>,<title>` line and the URI line after it, with the value the
duration text parses to. -/
structure mediaEntry (F : Type) where
  durationText : Str
  title : Str
  uri : Str
  duration : F

/-- The two lines a `mediaEntry` stands for, entry after entry. -/
def entryLines {F : Type} : List (mediaEntry F) → List Str
  | [] => []
  | e :: rest =>
    ("#EXTINF:".toList ++ e.durationText ++ ",".toList ++ e.title) :: e.uri :: entryLines rest

/-- The manifest of C3: the sequence line, the target-duration line, then the entries. -/
def manifestLines {F : Type} (N T : Int) (entries : List (mediaEntry F)) : List Str :=
  ("#EXT-X-MEDIA-SEQUENCE:".toList ++ strconv.Itoa N) ::
    ("#EXT-X-TARGETDURATION:".toList ++ strconv.Itoa T) :: entryLines entries

/-- What makes an entry well-formed: the duration text parses, duration text and title hold
no colon and no comma, and the URI line does not begin with `#`. -/
def mediaEntry.wellFormed {F : Type} (parseFloat : Str → Except GoError F) (e : mediaEntry F) : Prop :=
  parseFloat e.durationText = .ok e.duration ∧ ':' ∉ e.durationText ∧ ',' ∉ e.durationText ∧
    ':' ∉ e.title ∧ ',' ∉ e.title ∧ strings.HasPrefix e.uri "#".toList = false

/-- The segment the parser builds for the entry at position `i` after sequence number `N`. -/
def entrySegment {F : Type} (N : Int) (ie : Nat × mediaEntry F) : segment F :=
  { duration := ie.2.duration, uri := ie.2.uri, no := wrapInt (N + ie.1) }

/-- A reader of plain decimal literals `digits` and `digits.digits`, the value given as the
number without the point and the count of decimals.  It stands in for `strconv.ParseFloat`
where a theorem is applied to a concrete manifest. -/
def decimalValue (s : Str) : Except GoError (Nat × Nat) :=
  match strings.Split s '.' with
  | [a] =>
    if a = [] then .error (.errorString "invalid syntax".toList)
    else (strconv.parseUintLoop 0 a).map (fun n => (n, 0))
  | [a, b] =>
    if a = [] ∨ b = [] then .error (.errorString "invalid syntax".toList)
    else (strconv.parseUintLoop 0 (a ++ b)).map (fun n => (n, b.length))
  | _ => .error (.errorString "invalid syntax".toList)

/-- Two entries for the manifest with sequence 5 and target duration 6. -/
def exampleEntries : List (mediaEntry (Nat × Nat)) :=
  [{ durationText := "5.96".toList, title := [], uri := "seg5.ts".toList, duration := (596, 2) },
   { durationText := "6".toList, title := "t".toList, uri := "seg6.ts".toList, duration := (6, 0) }]

/-- Blank lines in the words of the specification: nothing but white space. -/
def isBlankLine (line : Str) : Bool := line.all Char.isWhitespace

/-- Segment lines in the words of the specification: non-blank and not beginning with `#`. -/
def isSegmentLineSpec (line : Str) : Bool := !isBlankLine line && !strings.HasPrefix line "#".toList

/-- A manifest text of directives, a comment and one blank line. -/
def blankLineManifest : Str := "#EXTM3U\n#EXT-X-TARGETDURATION:6\n\n#EXT-X-ENDLIST\n".toList

/-- A manifest with one segment before `#EXT-X-ENDLIST` and a malformed line after it. -/
def endlistManifest : List Str :=
  ["#EXT-X-MEDIA-SEQUENCE:5".toList, "#EXTINF:6,".toList, "seg5.ts".toList,
   "#EXT-X-ENDLIST".toList, "#EXTINF:bad".toList, "late.ts".toList]

/-- What the outside world does in the example cycles: the manifest with sequence 5, target
duration 6 and `exampleEntries`, and no failure. -/
def exampleCycleEnv : cycleEnv :=
  { get := .ok (manifestLines 5 6 exampleEntries), createTemp := .ok "out/playlist123".toList,
    rename := none, write := none }

/-- The snapshot of the example manifest with its segment URIs made absolute. -/
def exampleSnapshot : playlist (Nat × Nat) :=
  { sequence := 5, targetDuration := 6, end_ := false, payload := [],
    segments := [{ duration := (596, 2), uri := "http://h/live/v1/seg5.ts".toList, no := 5 },
                 { duration := (6, 0), uri := "http://h/live/v1/seg6.ts".toList, no := 6 }] }

/-- The segments of `exampleSnapshot` as sent to the worker. -/
def exampleSends : List (effect (Nat × Nat)) := exampleSnapshot.segments.map .send

/-- The segment of the examples for the worker. -/
def exampleSegment : segment Unit := { duration := (), uri := "http://h/a/seg7.ts".toList, no := 7 }

/-- A request answered with `404 Not Found`. -/
def notFoundEnv : segmentEnv :=
  { net := .response 404 "404 Not Found".toList [], create := none, copy := none }

/-- The segment of `TestSegmentDownloer`, on a server at `127.0.0.1:8080`. -/
def testSegment : segment Unit :=
  { duration := (), uri := "http://127.0.0.1:8080/aaa/bbb/stream_65535.ts".toList, no := 65535 }

/-- The answer of the test server: `200 OK` with the test body, and no local failure. -/
def testEnv : segmentEnv :=
  { net := .response 200 "200 OK".toList "a_ts_file_binary".toList, create := none, copy := none }

/-- A request answered with `200 OK` whose body cannot be copied to the end. -/
def copyFailEnv : segmentEnv :=
  { net := .response 200 "200 OK".toList "a_ts_file_binary".toList, create := none,
    copy := some (.errorString "unexpected EOF".toList, "a_ts".toList) }

/-- A request answered with `200 OK` when neither the file can be created nor the body
copied. -/
def createFailEnv : segmentEnv :=
  { net := .response 200 "200 OK".toList "a_ts_file_binary".toList,
    create := some (.errorString "open out/seg7.ts: no such file or directory".toList),
    copy := some (.errorString "invalid argument".toList, []) }

/-- A queued segment whose request can be built and meets a timeout or a status that counts
as a client factor (400, 402, 404..499). -/
def retryableFailure {F : Type} (x : segment F × segmentEnv) : Prop :=
  (∃ u, url.Parse x.1.uri = .ok u) ∧
    ((∃ msg, x.2.net = .timeout msg) ∨
      ∃ code status body, x.2.net = .response code status body ∧
        (code = 400 ∨ code = 402 ∨ (404 ≤ code ∧ code ≤ 499)))

/-- Seven queued segments that all meet `404 Not Found`. -/
def sevenNotFound : List (segment Unit × segmentEnv) := List.replicate 7 (exampleSegment, notFoundEnv)

/-- Whether `parse2nd` accepts a line as it stands: a `#EXT-X-MEDIA-SEQUENCE` or
`#EXT-X-TARGETDURATION` line has exactly one colon and an integer after it, an `#EXTINF`
line has exactly one colon and after it exactly one comma with a duration before it that
`strconv.ParseFloat` accepts; every other line is accepted. -/
def directiveWellFormed {F : Type} (parseFloat : Str → Except GoError F) (line : Str) : Bool :=
  if strings.HasPrefix line "#EXT-X-MEDIA-SEQUENCE".toList then
    match strings.Split line ':' with
    | [_, value] => (strconv.Atoi value).isOk
    | _ => false
  else if strings.HasPrefix line "#EXT-X-TARGETDURATION".toList then
    match strings.Split line ':' with
    | [_, value] => (strconv.Atoi value).isOk
    | _ => false
  else if strings.HasPrefix line "#EXTINF".toList then
    match strings.Split line ':' with
    | [_, value] =>
      match strings.Split value ',' with
      | [dur, _] => (parseFloat dur).isOk
      | _ => false
    | _ => false
  else true

/-! ## Lemmas on the string functions -/

theorem split_ne_nil (s : Str) (sep : Char) : strings.Split s sep ≠ [] := by
  cases s with
  | nil => simp [strings.Split]
  | cons c rest =>
    unfold strings.Split
    split
    · simp
    · split <;> simp

theorem split_cons_sep (sep : Char) (rest : Str) :
    strings.Split (sep :: rest) sep = [] :: strings.Split rest sep := by
  simp [strings.Split]

theorem split_cons_other (c sep : Char) (rest : Str) (h : c ≠ sep) :
    strings.Split (c :: rest) sep =
      (c :: (strings.Split rest sep).headD []) :: (strings.Split rest sep).tail := by
  have hne := split_ne_nil rest sep
  rw [strings.Split]
  simp only [beq_iff_eq, h, if_false]
  cases hs : strings.Split rest sep with
  | nil => exact absurd hs hne
  | cons piece pieces => simp

theorem split_length (s : Str) (sep : Char) : (strings.Split s sep).length = s.count sep + 1 := by
  induction s with
  | nil => simp [strings.Split]
  | cons c rest ih =>
    by_cases h : c = sep
    · subst h
      rw [split_cons_sep]
      simp [ih]
    · rw [split_cons_other c sep rest h]
      have hne := split_ne_nil rest sep
      cases hs : strings.Split rest sep with
      | nil => exact absurd hs hne
      | cons piece pieces =>
        rw [hs] at ih
        simp only [List.headD_cons, List.tail_cons, List.length_cons] at ih ⊢
        rw [List.count_cons_of_ne (Ne.symm h)]
        exact ih

theorem split_of_not_mem (a : Str) (sep : Char) (h : sep ∉ a) : strings.Split a sep = [a] := by
  induction a with
  | nil => simp [strings.Split]
  | cons c rest ih =>
    have hc : c ≠ sep := fun e => h (by simp [e])
    have hr : sep ∉ rest := fun e => h (by simp [e])
    rw [split_cons_other c sep rest hc, ih hr]
    simp

theorem split_append (a b : Str) (sep : Char) (h : sep ∉ a) :
    strings.Split (a ++ sep :: b) sep = a :: strings.Split b sep := by
  induction a with
  | nil => simp [split_cons_sep]
  | cons c rest ih =>
    have hc : c ≠ sep := fun e => h (by simp [e])
    have hr : sep ∉ rest := fun e => h (by simp [e])
    rw [List.cons_append, split_cons_other c sep _ hc, ih hr]
    simp

theorem count_append_sep (a b : Str) (sep : Char) :
    (a ++ sep :: b).count sep = a.count sep + b.count sep + 1 := by
  simp [List.count_append, List.count_cons_self]
  omega

/-! ## C1: the name of the playlist file -/

theorem split_two_of_count (b stem ext : Str) (hb : b = stem ++ '.' :: ext)
    (hc : b.count '.' = 1) : strings.Split b '.' = [stem, ext] := by
  subst hb
  rw [count_append_sep] at hc
  have hs : '.' ∉ stem := by
    intro hmem
    have := List.count_pos_iff.mpr hmem
    omega
  have he : '.' ∉ ext := by
    intro hmem
    have := List.count_pos_iff.mpr hmem
    omega
  rw [split_append stem ext '.' hs, split_of_not_mem ext '.' he]

theorem uri2playlistPath_of_parse (uri outputDir : Str) (count : Int) (u : url.URL)
    (h : url.Parse uri = .ok u) :
    uri2playlistPath uri outputDir count =
      match strings.Split (filepath.Base u.Path) '.' with
      | [stem, ext] => .ok (outputDir ++ '/' :: stem ++ '_' :: strconv.Itoa count ++ '.' :: ext)
      | _ => .error (.errorString "parse `.` dot error".toList) := by
  simp only [uri2playlistPath, uri2basename, h]

/-- C1: for a URI that `url.Parse` accepts, with `b` the final component of its path
(`filepath.Base`), `uri2playlistPath` succeeds exactly when `b` contains exactly one dot,
and then, for `b = stem.ext`, returns `outputDir/stem_count.ext` with the count in decimal.
A URI ending in `playlist.m3u8` with directory `out` and count 2 gives `out/playlist_2.m3u8`;
the basenames `playlist` and `a.b.c` give an error. -/
theorem uri2playlistPath_spec (uri outputDir : Str) (count : Int) (u : url.URL)
    (h : url.Parse uri = .ok u) :
    ((∃ path, uri2playlistPath uri outputDir count = .ok path) ↔
        (filepath.Base u.Path).count '.' = 1) ∧
    (∀ stem ext : Str, filepath.Base u.Path = stem ++ '.' :: ext →
        (filepath.Base u.Path).count '.' = 1 →
        uri2playlistPath uri outputDir count =
          .ok (outputDir ++ "/".toList ++ stem ++ "_".toList ++ strconv.Itoa count ++
            ".".toList ++ ext)) ∧
    uri2playlistPath "http://h/live/v1/playlist.m3u8".toList "out".toList 2 =
        .ok "out/playlist_2.m3u8".toList ∧
    uri2playlistPath "http://h/live/v1/playlist".toList "out".toList 2 =
        .error (.errorString "parse `.` dot error".toList) ∧
    uri2playlistPath "http://h/live/v1/a.b.c".toList "out".toList 2 =
        .error (.errorString "parse `.` dot error".toList) := by
  refine ⟨?_, ?_, by decide, by decide, by decide⟩
  · rw [uri2playlistPath_of_parse uri outputDir count u h]
    have hlen := split_length (filepath.Base u.Path) '.'
    constructor
    · rintro ⟨path, hp⟩
      split at hp
      · next stem ext heq =>
        rw [heq] at hlen
        simp at hlen
        omega
      · cases hp
    · intro hc
      rw [hc] at hlen
      match hs : strings.Split (filepath.Base u.Path) '.', hlen with
      | [stem, ext], _ => exact ⟨_, rfl⟩
  · intro stem ext hb hc
    rw [uri2playlistPath_of_parse uri outputDir count u h,
      split_two_of_count _ stem ext hb hc]
    simp

/-- Witness of `uri2playlistPath_spec` at `http://h/live/v1/playlist.m3u8`, `out`, 2. -/
theorem uri2playlistPath_spec_witness :
    url.Parse "http://h/live/v1/playlist.m3u8".toList =
        .ok { Scheme := "http".toList, Host := "h".toList, Path := "/live/v1/playlist.m3u8".toList } ∧
    uri2playlistPath "http://h/live/v1/playlist.m3u8".toList "out".toList 2 =
        .ok ("out".toList ++ "/".toList ++ "playlist".toList ++ "_".toList ++ strconv.Itoa 2 ++
          ".".toList ++ "m3u8".toList) :=
  ⟨by decide,
   (uri2playlistPath_spec "http://h/live/v1/playlist.m3u8".toList "out".toList 2
      { Scheme := "http".toList, Host := "h".toList, Path := "/live/v1/playlist.m3u8".toList }
      (by decide)).2.1 "playlist".toList "m3u8".toList (by decide) (by decide)⟩

/-! ## C2: making segment URIs absolute -/

theorem setLast_cons_of_ne_nil (x a : Str) (l : List Str) (h : l ≠ []) :
    setLast x (a :: l) = a :: setLast x l := by
  cases l with
  | nil => exact absurd rfl h
  | cons b rest => rfl

theorem setLast_ne_nil (x : Str) (l : List Str) (h : l ≠ []) : setLast x l ≠ [] := by
  cases l with
  | nil => exact absurd rfl h
  | cons a rest =>
    cases rest with
    | nil => simp [setLast]
    | cons b rest2 => simp [setLast]

theorem join_cons_of_ne_nil (a : Str) (l : List Str) (sep : Char) (h : l ≠ []) :
    strings.Join (a :: l) sep = a ++ sep :: strings.Join l sep := by
  cases l with
  | nil => exact absurd rfl h
  | cons b rest => rfl

theorem mem_of_split_tail_ne_nil (s : Str) (sep : Char) (h : (strings.Split s sep).tail ≠ []) :
    sep ∈ s := by
  by_contra hmem
  rw [split_of_not_mem s sep hmem] at h
  simp at h

theorem join_setLast_split (s x : Str) :
    strings.Join (setLast x (strings.Split s '/')) '/' = dirPart s ++ x := by
  induction s with
  | nil => simp [strings.Split, setLast, strings.Join, dirPart]
  | cons c rest ih =>
    have hne := split_ne_nil rest '/'
    by_cases hc : c = '/'
    · subst hc
      rw [split_cons_sep, setLast_cons_of_ne_nil _ _ _ hne,
        join_cons_of_ne_nil _ _ _ (setLast_ne_nil _ _ hne), ih]
      simp [dirPart]
    · rw [split_cons_other c '/' rest hc]
      cases hs : strings.Split rest '/' with
      | nil => exact absurd hs hne
      | cons hd tl =>
        rw [hs] at ih
        simp only [List.headD_cons, List.tail_cons]
        cases tl with
        | nil =>
          have hnot : '/' ∉ rest := by
            intro hmem
            have hlen := split_length rest '/'
            rw [hs] at hlen
            have := List.count_pos_iff.mpr hmem
            simp at hlen
            omega
          have hnot2 : '/' ∉ c :: rest := by
            simp only [List.mem_cons, not_or]
            exact ⟨fun e => hc e.symm, hnot⟩
          simp [setLast, strings.Join, dirPart, hnot2]
        | cons t ts =>
          have hmem : '/' ∈ rest := by
            apply mem_of_split_tail_ne_nil
            rw [hs]
            simp
          rw [setLast_cons_of_ne_nil _ _ _ (by simp),
            join_cons_of_ne_nil _ _ _ (setLast_ne_nil _ _ (by simp))]
          rw [setLast_cons_of_ne_nil _ _ _ (by simp),
            join_cons_of_ne_nil _ _ _ (setLast_ne_nil _ _ (by simp))] at ih
          have hd2 : dirPart (c :: rest) = c :: dirPart rest := by
            simp [dirPart, hmem]
          rw [hd2, List.cons_append, List.cons_append, ih]

theorem dirPart_append (dir last : Str) (h : '/' ∉ last) :
    dirPart (dir ++ '/' :: last) = dir ++ ['/'] := by
  induction dir with
  | nil =>
    have hl : dirPart last = [] := by
      cases last with
      | nil => rfl
      | cons c rest => simp [dirPart, h]
    simp [dirPart, hl]
  | cons c rest ih =>
    simp [dirPart, ih]

theorem dirPart_of_not_mem (p : Str) (h : '/' ∉ p) : dirPart p = [] := by
  cases p with
  | nil => rfl
  | cons c rest => simp [dirPart, h]

theorem modifySegment_abs {F : Type} (base : url.URL) (s : segment F) (u : url.URL)
    (h : u.IsAbs = true) : modifySegment base s u = s := by
  simp [modifySegment, h]

theorem modifySegment_rel {F : Type} (base : url.URL) (s : segment F) (u : url.URL)
    (h : u.IsAbs = false) :
    modifySegment base s u =
      { s with uri := url.URL.String { base with Path := dirPart base.Path ++ u.Path } } := by
  simp [modifySegment, h, join_setLast_split]

theorem modifySegments_length {F : Type} (base : url.URL) (segs : List (segment F)) :
    (modifySegments base segs).1.length = segs.length := by
  induction segs with
  | nil => rfl
  | cons s rest ih =>
    unfold modifySegments
    split
    · rfl
    · simp [ih]

theorem modifySegments_err {F : Type} (base : url.URL) (segs : List (segment F)) :
    (modifySegments base segs).2 = none ↔ ∀ t ∈ segs, ∃ v, url.Parse t.uri = .ok v := by
  induction segs with
  | nil => simp [modifySegments]
  | cons s rest ih =>
    unfold modifySegments
    split
    · next e he => simp [he]
    · next v hv => simp [hv, ih]

theorem modifySegments_get {F : Type} (base : url.URL) :
    ∀ (segs : List (segment F)) (i : Nat) (s : segment F) (u : url.URL),
      segs[i]? = some s →
      (∀ j t, j < i → segs[j]? = some t → ∃ v, url.Parse t.uri = .ok v) →
      url.Parse s.uri = .ok u →
      (modifySegments base segs).1[i]? = some (modifySegment base s u) := by
  intro segs
  induction segs with
  | nil => intro i s u h; simp at h
  | cons a rest ih =>
    intro i s u hget hpre hparse
    cases i with
    | zero =>
      simp only [List.getElem?_cons_zero, Option.some.injEq] at hget
      subst hget
      simp [modifySegments, hparse]
    | succ k =>
      simp only [List.getElem?_cons_succ] at hget
      obtain ⟨v, hv⟩ := hpre 0 a (Nat.succ_pos k) (by simp)
      have hrest := ih k s u hget
        (fun j t hj ht => hpre (j + 1) t (Nat.succ_lt_succ hj) (by simpa using ht)) hparse
      simp [modifySegments, hv, hrest]

theorem modifySegments_unreached {F : Type} (base : url.URL) :
    ∀ (segs : List (segment F)) (i : Nat) (s : segment F),
      segs[i]? = some s →
      (∃ j t e, j ≤ i ∧ segs[j]? = some t ∧ url.Parse t.uri = .error e) →
      (modifySegments base segs).1[i]? = some s := by
  intro segs
  induction segs with
  | nil => intro i s h; simp at h
  | cons a rest ih =>
    intro i s hget hbad
    cases hpa : url.Parse a.uri with
    | error e => simp [modifySegments, hpa, hget]
    | ok v =>
      obtain ⟨j, t, e, hji, hjt, hte⟩ := hbad
      cases j with
      | zero =>
        simp only [List.getElem?_cons_zero, Option.some.injEq] at hjt
        subst hjt
        rw [hpa] at hte
        cases hte
      | succ j1 =>
        cases i with
        | zero => omega
        | succ k =>
          simp only [List.getElem?_cons_succ] at hget hjt
          have hrest := ih k s hget ⟨j1, t, e, by omega, hjt, hte⟩
          simp [modifySegments, hpa, hrest]

/-- C2: `playlist.modify` visits the segments in order and stops with an error at the first
URI that `url.Parse` rejects; it returns no error exactly when every segment URI parses.
Every segment it reaches keeps its number and duration; if its URI is absolute it is left
exactly unchanged; if it is relative its URI becomes the text of the base URI whose path has
its last slash-separated component replaced by the path of the relative URI (scheme, host,
the leading path components and all other fields of the base are kept).  The segment whose
URI is rejected and the segments after it are left as they were.  The relative URI
`seg1.ts` against `http://h/live/v1/playlist.m3u8` becomes `http://h/live/v1/seg1.ts`. -/
theorem modify_spec {F : Type} (p : playlist F) (playlistURI : url.URL) :
    ((p.modify playlistURI).2 = none ↔ ∀ t ∈ p.segments, ∃ v, url.Parse t.uri = .ok v) ∧
    (p.modify playlistURI).1.segments.length = p.segments.length ∧
    (∀ (i : Nat) (s : segment F) (u : url.URL),
      p.segments[i]? = some s →
      (∀ j t, j < i → p.segments[j]? = some t → ∃ v, url.Parse t.uri = .ok v) →
      url.Parse s.uri = .ok u →
      ∃ s1, (p.modify playlistURI).1.segments[i]? = some s1 ∧
        s1.no = s.no ∧ s1.duration = s.duration ∧
        (u.IsAbs = true → s1.uri = s.uri) ∧
        (u.IsAbs = false →
          (∀ dir last : Str, playlistURI.Path = dir ++ "/".toList ++ last → '/' ∉ last →
            s1.uri = url.URL.String { playlistURI with Path := dir ++ "/".toList ++ u.Path }) ∧
          ('/' ∉ playlistURI.Path →
            s1.uri = url.URL.String { playlistURI with Path := u.Path }))) ∧
    (∀ (i : Nat) (s : segment F), p.segments[i]? = some s →
      (∃ j t e, j ≤ i ∧ p.segments[j]? = some t ∧ url.Parse t.uri = .error e) →
      (p.modify playlistURI).1.segments[i]? = some s) ∧
    (∀ (d : F) (n : Int) (base : url.URL),
      url.Parse "http://h/live/v1/playlist.m3u8".toList = .ok base →
      ((playlist.modify
          { sequence := n, targetDuration := 0, end_ := false,
            segments := [{ duration := d, uri := "seg1.ts".toList, no := n }], payload := [] }
          base).1.segments = [{ duration := d, uri := "http://h/live/v1/seg1.ts".toList, no := n }])) := by
  refine ⟨modifySegments_err playlistURI p.segments, modifySegments_length playlistURI p.segments,
    ?_, fun i s hget hbad => modifySegments_unreached playlistURI p.segments i s hget hbad, ?_⟩
  · intro i s u hget hpre hparse
    refine ⟨modifySegment playlistURI s u, modifySegments_get playlistURI p.segments i s u hget hpre hparse,
      ?_, ?_, ?_, ?_⟩
    · unfold modifySegment; split <;> rfl
    · unfold modifySegment; split <;> rfl
    · intro habs
      rw [modifySegment_abs playlistURI s u habs]
    · intro hrel
      rw [modifySegment_rel playlistURI s u hrel]
      refine ⟨?_, ?_⟩
      · intro dir last hpath hlast
        have hp : playlistURI.Path = dir ++ '/' :: last := by simpa using hpath
        simp [hp, dirPart_append dir last hlast]
      · intro hno
        simp [dirPart_of_not_mem _ hno]
  · intro d n base hbase
    have hb : base = examplePlaylistURI := by
      have h2 : url.Parse "http://h/live/v1/playlist.m3u8".toList = .ok examplePlaylistURI := by
        decide
      rw [h2] at hbase
      exact (Except.ok.inj hbase).symm
    subst hb
    have hseg : url.Parse "seg1.ts".toList = .ok { Path := "seg1.ts".toList } := by decide
    have hstr : url.URL.String { examplePlaylistURI with
        Path := dirPart examplePlaylistURI.Path ++ "seg1.ts".toList } =
        "http://h/live/v1/seg1.ts".toList := by decide
    have hrel := modifySegment_rel examplePlaylistURI
      ({ duration := d, uri := "seg1.ts".toList, no := n } : segment F)
      { Path := "seg1.ts".toList } (by decide)
    simp only [playlist.modify, modifySegments, hseg, hrel]
    rw [hstr]

/-- Witness of `modify_spec`: the second segment of `examplePlaylist`, a relative URI after
an absolute one, resolved against `http://h/live/v1/playlist.m3u8`. -/
theorem modify_spec_witness :
    url.Parse "seg1.ts".toList = .ok { Path := "seg1.ts".toList } ∧
    (examplePlaylist.modify examplePlaylistURI).1.segments[1]? =
      some { duration := (), uri := "http://h/live/v1/seg1.ts".toList, no := 6 } := by
  refine ⟨by decide, ?_⟩
  obtain ⟨s1, hget, hno, _, _, hrel⟩ :=
    (modify_spec examplePlaylist examplePlaylistURI).2.2.1 1
      { duration := (), uri := "seg1.ts".toList, no := 6 } { Path := "seg1.ts".toList }
      (by decide)
      (by
        intro j t hj ht
        have hj0 : j = 0 := by omega
        subst hj0
        have ht2 : t = { duration := (), uri := "http://cdn/x.ts".toList, no := 5 } := by
          simpa [examplePlaylist] using ht.symm
        subst ht2
        exact ⟨{ Scheme := "http".toList, Host := "cdn".toList, Path := "/x.ts".toList }, by decide⟩)
      (by decide)
  have huri := (hrel (by decide)).1 "/live/v1".toList "playlist.m3u8".toList (by decide) (by decide)
  have hstr : url.URL.String { examplePlaylistURI with
      Path := "/live/v1".toList ++ "/".toList ++ "seg1.ts".toList } =
      "http://h/live/v1/seg1.ts".toList := by decide
  rw [hget]
  congr 1
  cases s1 with
  | mk dur uri no =>
    simp only at hno huri
    rw [hstr] at huri
    subst hno huri
    rfl

/-! ## C3: parsing a well-formed media playlist -/

theorem digitsValue_ge (ds : Str) : ∀ acc, acc ≤ digitsValue acc ds := by
  induction ds with
  | nil => intro acc; exact Nat.le_refl _
  | cons c rest ih =>
    intro acc
    have h := ih (acc * 10 + (c.toNat - 48))
    simp only [digitsValue, List.foldl_cons] at h ⊢
    omega

theorem parseUintLoop_ok (ds : Str) : ∀ acc,
    (∀ c ∈ ds, url.between '0' '9' c = true) → digitsValue acc ds < 18446744073709551616 →
    strconv.parseUintLoop acc ds = .ok (digitsValue acc ds) := by
  induction ds with
  | nil => intro acc _ _; rfl
  | cons c rest ih =>
    intro acc hd hv
    have hc : url.between '0' '9' c = true := hd c (by simp)
    have hge := digitsValue_ge rest (acc * 10 + (c.toNat - 48))
    have hv2 : digitsValue (acc * 10 + (c.toNat - 48)) rest < 18446744073709551616 := by
      simpa [digitsValue] using hv
    have hlt : ¬ (acc * 10 + (c.toNat - 48) ≥ 18446744073709551616) := by omega
    rw [strconv.parseUintLoop]
    simp only [hc, Bool.not_true, Bool.false_eq_true, if_false, hlt]
    rw [ih _ (fun c2 h2 => hd c2 (by simp [h2])) hv2]
    simp [digitsValue]

theorem parseUintLoop_digits (ds : Str) : ∀ acc m,
    strconv.parseUintLoop acc ds = .ok m → ∀ c ∈ ds, url.between '0' '9' c = true := by
  induction ds with
  | nil => intro _ _ _ c hc; simp at hc
  | cons d rest ih =>
    intro acc m h c hc
    rw [strconv.parseUintLoop] at h
    split at h
    · cases h
    · next hd =>
      split at h
      · cases h
      · rcases List.mem_cons.mp hc with rfl | hmem
        · simpa using hd
        · exact ih _ m h c hmem

theorem digitChar_toNat (d : Nat) (h : d < 10) : (strconv.digitChar d).toNat = 48 + d := by
  interval_cases d <;> rfl

theorem digitChar_between (d : Nat) (h : d < 10) :
    url.between '0' '9' (strconv.digitChar d) = true := by
  interval_cases d <;> rfl

theorem natDigits_all (fuel : Nat) : ∀ n, ∀ c ∈ strconv.natDigits fuel n,
    url.between '0' '9' c = true := by
  induction fuel with
  | zero => intro n c hc; simp [strconv.natDigits] at hc
  | succ k ih =>
    intro n c hc
    rw [strconv.natDigits] at hc
    split at hc
    · next hlt =>
      simp only [List.mem_singleton] at hc
      subst hc
      exact digitChar_between n hlt
    · rcases List.mem_append.mp hc with h1 | h2
      · exact ih _ c h1
      · simp only [List.mem_singleton] at h2
        subst h2
        exact digitChar_between _ (Nat.mod_lt _ (by decide))

theorem natDigits_value (fuel : Nat) : ∀ n, n < fuel →
    digitsValue 0 (strconv.natDigits fuel n) = n := by
  induction fuel with
  | zero => intro n h; omega
  | succ k ih =>
    intro n hn
    rw [strconv.natDigits]
    split
    · next hlt => simp [digitsValue, digitChar_toNat n hlt]
    · next hge =>
      have hk : n / 10 < k := by omega
      have h1 := ih (n / 10) hk
      have h2 := digitChar_toNat (n % 10) (Nat.mod_lt _ (by decide))
      simp only [digitsValue, List.foldl_append, List.foldl_cons, List.foldl_nil] at h1 ⊢
      rw [h1, h2]
      omega

theorem natDigits_ne_nil (fuel n : Nat) : strconv.natDigits (fuel + 1) n ≠ [] := by
  rw [strconv.natDigits]
  split <;> simp

theorem between_digit_ne (c : Char) (h : url.between '0' '9' c = true) :
    c ≠ '-' ∧ c ≠ '+' ∧ c ≠ ':' ∧ c ≠ ',' := by
  simp only [url.between, Bool.and_eq_true, decide_eq_true_eq] at h
  refine ⟨?_, ?_, ?_, ?_⟩ <;> (rintro rfl; revert h; decide)

theorem natDigits_head (fuel n : Nat) :
    (strconv.natDigits (fuel + 1) n).head? ≠ some '-' ∧
    (strconv.natDigits (fuel + 1) n).head? ≠ some '+' := by
  have hall := natDigits_all (fuel + 1) n
  have hne := natDigits_ne_nil fuel n
  cases hd : strconv.natDigits (fuel + 1) n with
  | nil => exact absurd hd hne
  | cons c rest =>
    have hc := between_digit_ne c (hall c (by simp [hd]))
    simp only [List.head?_cons, ne_eq, Option.some.injEq]
    exact ⟨hc.1, hc.2.1⟩

/-- `strconv.Atoi` reads back what `strconv.Itoa` prints, for every value of type `int`. -/
theorem Atoi_Itoa (n : Int) (h : isInt n) : strconv.Atoi (strconv.Itoa n) = .ok n := by
  obtain ⟨hlo, hhi⟩ := h
  have hall := natDigits_all (n.natAbs + 1) n.natAbs
  have hval := natDigits_value (n.natAbs + 1) n.natAbs (Nat.lt_succ_self _)
  have hne := natDigits_ne_nil n.natAbs n.natAbs
  have hhead := natDigits_head n.natAbs n.natAbs
  have hparse := parseUintLoop_ok _ 0 hall (by rw [hval]; omega)
  rw [hval] at hparse
  by_cases hneg : n < 0
  · simp only [strconv.Itoa, hneg, if_true, strconv.Atoi, List.head?_cons, true_or, List.tail_cons,
      hne, if_false, hparse, decide_True]
    have h1 : ¬ (n.natAbs > 9223372036854775808) := by omega
    simp only [h1, and_false, if_false, Bool.not_true, Bool.false_eq_true, false_and]
    congr 1
    omega
  · simp only [strconv.Itoa, hneg, if_false, strconv.Atoi, hhead.1, hhead.2, or_self, hne, hparse,
      decide_False]
    have h1 : ¬ (n.natAbs ≥ 9223372036854775808) := by omega
    simp only [h1, and_false, if_false, Bool.false_eq_true, false_and]
    congr 1
    omega

theorem Atoi_digits (s : Str) (n : Int) (h : strconv.Atoi s = .ok n) :
    ∀ c ∈ (if s.head? = some '-' ∨ s.head? = some '+' then s.tail else s),
      url.between '0' '9' c = true := by
  unfold strconv.Atoi at h
  simp only at h
  by_cases hnil : (if s.head? = some '-' ∨ s.head? = some '+' then s.tail else s) = []
  · rw [if_pos hnil] at h
    cases h
  · rw [if_neg hnil] at h
    cases hp : strconv.parseUintLoop 0 (if s.head? = some '-' ∨ s.head? = some '+' then s.tail else s) with
    | error e => rw [hp] at h; cases h
    | ok un => exact parseUintLoop_digits _ 0 un hp

theorem Atoi_no_colon (s : Str) (n : Int) (h : strconv.Atoi s = .ok n) : ':' ∉ s := by
  have hd := Atoi_digits s n h
  intro hmem
  cases s with
  | nil => simp at hmem
  | cons c rest =>
    by_cases hsign : c = '-' ∨ c = '+'
    · simp only [List.head?_cons, Option.some.injEq, hsign, if_true, List.tail_cons] at hd
      rcases List.mem_cons.mp hmem with h1 | h1
      · rcases hsign with h2 | h2 <;> (rw [← h1] at h2; revert h2; decide)
      · exact (between_digit_ne _ (hd _ h1)).2.2.1 rfl
    · simp only [List.head?_cons, Option.some.injEq, hsign, if_false] at hd
      exact (between_digit_ne _ (hd _ hmem)).2.2.1 rfl

theorem wrapInt_of_isInt (x : Int) (h : isInt x) : wrapInt x = x := by
  unfold isInt at h
  unfold wrapInt
  omega

theorem wrapInt_succ (x : Int) : wrapInt (wrapInt x + 1) = wrapInt (x + 1) := by
  unfold wrapInt
  omega

theorem hasPrefix_hash_false (line p : Str) (h : strings.HasPrefix line "#".toList = false) :
    strings.HasPrefix line ('#' :: p) = false := by
  cases line with
  | nil => rfl
  | cons c rest =>
    have hc : (c == '#') = false := by
      cases rest <;> simpa [strings.HasPrefix] using h
    simp [strings.HasPrefix, hc]

theorem parse2ndLine_sequence {F : Type} (parseFloat : Str → Except GoError F) (v : parseVars F)
    (value : Str) (n : Int) (h : strconv.Atoi value = .ok n) :
    parse2ndLine parseFloat v ("#EXT-X-MEDIA-SEQUENCE:".toList ++ value) =
      .next { v with mediaSequence := n, no := n } := by
  have hp : strings.HasPrefix ("#EXT-X-MEDIA-SEQUENCE:".toList ++ value)
      "#EXT-X-MEDIA-SEQUENCE".toList = true := rfl
  have hs : strings.Split ("#EXT-X-MEDIA-SEQUENCE:".toList ++ value) ':' =
      ["#EXT-X-MEDIA-SEQUENCE".toList, value] := by
    have := split_append "#EXT-X-MEDIA-SEQUENCE".toList value ':' (by decide)
    rw [split_of_not_mem value ':' (Atoi_no_colon value n h)] at this
    exact this
  simp only [parse2ndLine, hp, if_true, hs, h]

theorem parse2ndLine_targetDuration {F : Type} (parseFloat : Str → Except GoError F)
    (v : parseVars F) (value : Str) (n : Int) (h : strconv.Atoi value = .ok n) :
    parse2ndLine parseFloat v ("#EXT-X-TARGETDURATION:".toList ++ value) =
      .next { v with targetDuration := n } := by
  have hp1 : strings.HasPrefix ("#EXT-X-TARGETDURATION:".toList ++ value)
      "#EXT-X-MEDIA-SEQUENCE".toList = false := rfl
  have hp2 : strings.HasPrefix ("#EXT-X-TARGETDURATION:".toList ++ value)
      "#EXT-X-TARGETDURATION".toList = true := rfl
  have hs : strings.Split ("#EXT-X-TARGETDURATION:".toList ++ value) ':' =
      ["#EXT-X-TARGETDURATION".toList, value] := by
    have := split_append "#EXT-X-TARGETDURATION".toList value ':' (by decide)
    rw [split_of_not_mem value ':' (Atoi_no_colon value n h)] at this
    exact this
  simp only [parse2ndLine, hp1, hp2, if_true, hs, h, Bool.false_eq_true, if_false]

theorem parse2ndLine_extinf {F : Type} (parseFloat : Str → Except GoError F) (v : parseVars F)
    (e : mediaEntry F) (h : e.wellFormed parseFloat) :
    parse2ndLine parseFloat v ("#EXTINF:".toList ++ e.durationText ++ ",".toList ++ e.title) =
      .next { v with segmentDuration := e.duration } := by
  obtain ⟨hpf, hd1, hd2, ht1, ht2, _⟩ := h
  have hline : "#EXTINF:".toList ++ e.durationText ++ ",".toList ++ e.title =
      "#EXTINF".toList ++ ':' :: (e.durationText ++ ',' :: e.title) := by
    simp
  rw [hline]
  have hp1 : strings.HasPrefix ("#EXTINF".toList ++ ':' :: (e.durationText ++ ',' :: e.title))
      "#EXT-X-MEDIA-SEQUENCE".toList = false := rfl
  have hp2 : strings.HasPrefix ("#EXTINF".toList ++ ':' :: (e.durationText ++ ',' :: e.title))
      "#EXT-X-TARGETDURATION".toList = false := rfl
  have hp3 : strings.HasPrefix ("#EXTINF".toList ++ ':' :: (e.durationText ++ ',' :: e.title))
      "#EXTINF".toList = true := rfl
  have hnc : ':' ∉ e.durationText ++ ',' :: e.title := by
    simp only [List.mem_append, List.mem_cons, not_or]
    exact ⟨hd1, by decide, ht1⟩
  have hs1 : strings.Split ("#EXTINF".toList ++ ':' :: (e.durationText ++ ',' :: e.title)) ':' =
      ["#EXTINF".toList, e.durationText ++ ',' :: e.title] := by
    rw [split_append "#EXTINF".toList _ ':' (by decide), split_of_not_mem _ ':' hnc]
  have hs2 : strings.Split (e.durationText ++ ',' :: e.title) ',' = [e.durationText, e.title] := by
    rw [split_append e.durationText _ ',' hd2, split_of_not_mem _ ',' ht2]
  simp only [parse2ndLine, hp1, hp2, hp3, if_true, hs1, hs2, hpf, Bool.false_eq_true, if_false]

theorem parse2ndLine_uri {F : Type} (parseFloat : Str → Except GoError F) (v : parseVars F)
    (line : Str) (h : strings.HasPrefix line "#".toList = false) :
    parse2ndLine parseFloat v line =
      .next { v with
        segments := v.segments ++ [{ duration := v.segmentDuration, uri := line, no := v.no }],
        no := wrapInt (v.no + 1) } := by
  have hp1 : strings.HasPrefix line "#EXT-X-MEDIA-SEQUENCE".toList = false :=
    hasPrefix_hash_false line _ h
  have hp2 : strings.HasPrefix line "#EXT-X-TARGETDURATION".toList = false :=
    hasPrefix_hash_false line _ h
  have hp3 : strings.HasPrefix line "#EXTINF".toList = false := hasPrefix_hash_false line _ h
  have hp4 : strings.HasPrefix line "#EXT-X-ENDLIST".toList = false := hasPrefix_hash_false line _ h
  simp only [parse2ndLine, hp1, hp2, hp3, hp4, h, Bool.false_eq_true, if_false, Bool.not_false,
    if_true]

theorem parse2ndLoop_entries {F : Type} (parseFloat : Str → Except GoError F) (N : Int) :
    ∀ (entries : List (mediaEntry F)) (v : parseVars F) (j : Nat),
      v.no = wrapInt (N + j) → (∀ e ∈ entries, e.wellFormed parseFloat) →
      ∃ d, parse2ndLoop parseFloat v (entryLines entries) =
        .ok { mediaSequence := v.mediaSequence, targetDuration := v.targetDuration,
              no := wrapInt (N + (j + entries.length : Nat)), segmentDuration := d, end_ := v.end_,
              segments := v.segments ++ (entries.enumFrom j).map (entrySegment N) } := by
  intro entries
  induction entries with
  | nil =>
    intro v j hno _
    refine ⟨v.segmentDuration, ?_⟩
    simp [entryLines, parse2ndLoop, ← hno]
  | cons e rest ih =>
    intro v j hno hwf
    have he := hwf e (by simp)
    have hrest : ∀ e2 ∈ rest, e2.wellFormed parseFloat := fun e2 h2 => hwf e2 (by simp [h2])
    have hno2 : wrapInt (v.no + 1) = wrapInt (N + ((j + 1 : Nat) : Int)) := by
      rw [hno, wrapInt_succ]
      congr 1
      push_cast
      ring
    obtain ⟨d, hd⟩ := ih
      { mediaSequence := v.mediaSequence, targetDuration := v.targetDuration,
        no := wrapInt (v.no + 1), segmentDuration := e.duration, end_ := v.end_,
        segments := v.segments ++ [{ duration := e.duration, uri := e.uri, no := v.no }] }
      (j + 1) hno2 hrest
    refine ⟨d, ?_⟩
    simp only [entryLines, parse2ndLoop, parse2ndLine_extinf parseFloat v e he,
      parse2ndLine_uri parseFloat _ e.uri he.2.2.2.2.2]
    rw [hd]
    simp only [List.enumFrom_cons, List.map_cons, List.length_cons, entrySegment, hno,
      List.append_assoc, List.singleton_append]
    congr 3
    omega

/-- C3: a manifest made of the line `#EXT-X-MEDIA-SEQUENCE:N`, the line
`#EXT-X-TARGETDURATION:T` and then `k ≥ 1` pairs of an `#EXTINF:<d>,<title>` line (`d` a text
`strconv.ParseFloat` accepts, no colon or comma in `d` and in the title) and a URI line not
beginning with `#` is parsed by `parse2nd` without error.  The snapshot has `sequence = N`,
`targetDuration = T` and exactly `k` segments in input order; segment `i` has the URI and the
parsed duration of pair `i` and `no = N + i`, computed as Go computes on `int` (so exactly
`N + i` whenever that is below `2^63`).  `N` and `T` range over the values of `int`. -/
theorem parse2nd_spec {F : Type} (parseFloat : Str → Except GoError F) (zero : F) (N T : Int)
    (entries : List (mediaEntry F)) (hN : isInt N) (hT : isInt T) (hk : 1 ≤ entries.length)
    (hwf : ∀ e ∈ entries, e.wellFormed parseFloat) :
    ∃ p, parse2nd parseFloat zero (manifestLines N T entries) = .ok p ∧
      p.sequence = N ∧ p.targetDuration = T ∧ p.segments.length = entries.length ∧
      ∀ (i : Nat) (e : mediaEntry F), entries[i]? = some e →
        ∃ s, p.segments[i]? = some s ∧ s.uri = e.uri ∧ s.duration = e.duration ∧
          s.no = wrapInt (N + i) ∧ (N + i < 9223372036854775808 → s.no = N + i) := by
  have h1 := parse2ndLine_sequence parseFloat
    { mediaSequence := 0, targetDuration := 0, no := 0, segmentDuration := zero, end_ := false,
      segments := [] } (strconv.Itoa N) N (Atoi_Itoa N hN)
  have h2 := parse2ndLine_targetDuration parseFloat
    { mediaSequence := N, targetDuration := 0, no := N, segmentDuration := zero, end_ := false,
      segments := [] } (strconv.Itoa T) T (Atoi_Itoa T hT)
  obtain ⟨d, hd⟩ := parse2ndLoop_entries parseFloat N entries
    { mediaSequence := N, targetDuration := T, no := N, segmentDuration := zero, end_ := false,
      segments := [] } 0 (by simp [wrapInt_of_isInt N hN]) hwf
  have hlen : ((entries.enumFrom 0).map (entrySegment N)).length = entries.length := by simp
  have hne : ¬ (([] : List (segment F)) ++ (entries.enumFrom 0).map (entrySegment N)).length = 0 := by
    simp only [List.nil_append, hlen]
    omega
  refine ⟨{ sequence := N, targetDuration := T, end_ := false,
            segments := (entries.enumFrom 0).map (entrySegment N), payload := [] }, ?_, rfl, rfl,
    hlen, ?_⟩
  · simp only [parse2nd, manifestLines, parse2ndLoop, h1, h2, hd]
    rw [if_neg hne]
    simp
  · intro i e hget
    refine ⟨entrySegment N (i, e), ?_, rfl, rfl, ?_, ?_⟩
    · simp [List.getElem?_map, List.getElem?_enumFrom, hget]
    · simp [entrySegment]
    · intro hlt
      have hi : isInt (N + i) := ⟨by unfold isInt at hN; omega, hlt⟩
      simp [entrySegment, wrapInt_of_isInt _ hi]

theorem exampleEntries_wellFormed : ∀ e ∈ exampleEntries, e.wellFormed decimalValue := by
  intro e he
  simp only [exampleEntries, List.mem_cons, List.mem_singleton, List.not_mem_nil, or_false] at he
  rcases he with rfl | rfl <;> (unfold mediaEntry.wellFormed; decide)

/-- Witness of `parse2nd_spec`: `N = 5`, `T = 6`, two pairs; the segments carry 5 and 6. -/
theorem parse2nd_spec_witness :
    (isInt 5 ∧ isInt 6 ∧ 1 ≤ exampleEntries.length) ∧
    parse2nd decimalValue (0, 0) (manifestLines 5 6 exampleEntries) =
      .ok { sequence := 5, targetDuration := 6, end_ := false, payload := [],
            segments := [{ duration := (596, 2), uri := "seg5.ts".toList, no := 5 },
                         { duration := (6, 0), uri := "seg6.ts".toList, no := 6 }] } ∧
    ∃ p, parse2nd decimalValue (0, 0) (manifestLines 5 6 exampleEntries) = .ok p ∧
      p.sequence = 5 ∧ p.targetDuration = 6 ∧ p.segments.length = exampleEntries.length ∧
      ∀ (i : Nat) (e : mediaEntry (Nat × Nat)), exampleEntries[i]? = some e →
        ∃ s, p.segments[i]? = some s ∧ s.uri = e.uri ∧ s.duration = e.duration ∧
          s.no = wrapInt (5 + i) ∧ ((5 : Int) + i < 9223372036854775808 → s.no = 5 + i) :=
  ⟨by decide, by decide,
   parse2nd_spec decimalValue (0, 0) 5 6 exampleEntries (by decide) (by decide) (by decide)
     exampleEntries_wellFormed⟩

/-! ## C4: a manifest without segment lines -/

/-- C4 fails as stated: `blankLineManifest` has no line that is both non-blank and free of a
leading `#`, yet `parse2nd` returns a snapshot; its one segment is the blank line. -/
theorem parse2nd_blank_line_counterexample :
    bufio.scanLines blankLineManifest =
      ["#EXTM3U".toList, "#EXT-X-TARGETDURATION:6".toList, [], "#EXT-X-ENDLIST".toList] ∧
    (∀ line ∈ bufio.scanLines blankLineManifest, isSegmentLineSpec line = false) ∧
    parse2nd decimalValue (0, 0) (bufio.scanLines blankLineManifest) =
      .ok { sequence := 0, targetDuration := 6, end_ := false, payload := [],
            segments := [{ duration := (0, 0), uri := [], no := 0 }] } := by
  refine ⟨by decide, by decide, by decide⟩

theorem parse2ndLine_hash {F : Type} (parseFloat : Str → Except GoError F) (v : parseVars F)
    (line : Str) (h : strings.HasPrefix line "#".toList = true) :
    (∀ v1, parse2ndLine parseFloat v line = .next v1 → v1.segments = v.segments) ∧
    (∀ v1, parse2ndLine parseFloat v line = .break_ v1 → v1.segments = v.segments) := by
  constructor
  all_goals
    intro v1 hv
    unfold parse2ndLine at hv
    simp only [h, Bool.not_true, Bool.false_eq_true, if_false] at hv
    repeat' (split at hv)
    all_goals first | (cases hv; rfl) | cases hv

theorem parse2ndLoop_hash {F : Type} (parseFloat : Str → Except GoError F) :
    ∀ (lines : List Str) (v r : parseVars F),
      (∀ line ∈ lines, strings.HasPrefix line "#".toList = true) →
      parse2ndLoop parseFloat v lines = .ok r → r.segments = v.segments := by
  intro lines
  induction lines with
  | nil =>
    intro v r _ h
    simp only [parse2ndLoop, Except.ok.injEq] at h
    rw [h]
  | cons line rest ih =>
    intro v r hall h
    have hl := parse2ndLine_hash parseFloat v line (hall line (by simp))
    rw [parse2ndLoop] at h
    split at h
    · cases h
    · next v1 hv1 =>
      simp only [Except.ok.injEq] at h
      rw [← h]
      exact hl.2 v1 hv1
    · next v1 hv1 =>
      rw [ih v1 r (fun l hmem => hall l (by simp [hmem])) h]
      exact hl.1 v1 hv1

theorem parse2nd_all_hash {F : Type} (parseFloat : Str → Except GoError F) (zero : F)
    (lines : List Str) (h : ∀ line ∈ lines, strings.HasPrefix line "#".toList = true) :
    ∃ e, parse2nd parseFloat zero lines = .error e := by
  unfold parse2nd
  split
  · next e _ => exact ⟨e, rfl⟩
  · next r hr =>
    have hseg := parse2ndLoop_hash parseFloat lines _ r h hr
    simp only at hseg
    simp [hseg]

theorem hasPrefix_append_of_true (p : Str) : ∀ s : Str, strings.HasPrefix s p = true →
    ∃ x, s = p ++ x := by
  induction p with
  | nil => intro s _; exact ⟨s, rfl⟩
  | cons d p1 ih =>
    intro s h
    cases s with
    | nil => simp [strings.HasPrefix] at h
    | cons c s1 =>
      simp only [strings.HasPrefix, Bool.and_eq_true, beq_iff_eq] at h
      obtain ⟨x, hx⟩ := ih s1 h.2
      exact ⟨x, by rw [h.1, hx]; rfl⟩

theorem parse2ndLine_endlist {F : Type} (parseFloat : Str → Except GoError F) (v : parseVars F)
    (line : Str) (h : strings.HasPrefix line "#EXT-X-ENDLIST".toList = true) :
    parse2ndLine parseFloat v line = .break_ v := by
  obtain ⟨x, rfl⟩ := hasPrefix_append_of_true _ line h
  have hp1 : strings.HasPrefix ("#EXT-X-ENDLIST".toList ++ x)
      "#EXT-X-MEDIA-SEQUENCE".toList = false := rfl
  have hp2 : strings.HasPrefix ("#EXT-X-ENDLIST".toList ++ x)
      "#EXT-X-TARGETDURATION".toList = false := rfl
  have hp3 : strings.HasPrefix ("#EXT-X-ENDLIST".toList ++ x) "#EXTINF".toList = false := rfl
  simp only [parse2ndLine, hp1, hp2, hp3, h, Bool.false_eq_true, if_false, if_true]

theorem parse2ndLine_wellFormed {F : Type} (parseFloat : Str → Except GoError F)
    (v : parseVars F) (line : Str) (hwf : directiveWellFormed parseFloat line = true)
    (hend : strings.HasPrefix line "#EXT-X-ENDLIST".toList = false) :
    ∃ v1, parse2ndLine parseFloat v line = .next v1 := by
  unfold directiveWellFormed at hwf
  unfold parse2ndLine
  simp only [hend, Bool.false_eq_true, if_false]
  split
  · rw [if_pos (by assumption)] at hwf
    split at hwf
    · next a value hs =>
      cases ha : strconv.Atoi value with
      | error e => rw [ha] at hwf; cases hwf
      | ok n => exact ⟨_, rfl⟩
    · cases hwf
  · rw [if_neg (by assumption)] at hwf
    split
    · rw [if_pos (by assumption)] at hwf
      split at hwf
      · next a value hs =>
        cases ha : strconv.Atoi value with
        | error e => rw [ha] at hwf; cases hwf
        | ok n => exact ⟨_, rfl⟩
      · cases hwf
    · rw [if_neg (by assumption)] at hwf
      split
      · rw [if_pos (by assumption)] at hwf
        split at hwf
        · next a value hs =>
          split at hwf
          · next dur title hs2 =>
            cases hd : parseFloat dur with
            | error e => rw [hd] at hwf; cases hwf
            | ok d => exact ⟨_, rfl⟩
          · cases hwf
        · cases hwf
      · split <;> exact ⟨_, rfl⟩

theorem parse2ndLoop_body {F : Type} (parseFloat : Str → Except GoError F) (tail : List Str) :
    ∀ (body : List Str) (v : parseVars F),
      (∀ l ∈ body, strings.HasPrefix l "#EXT-X-ENDLIST".toList = false ∧
        directiveWellFormed parseFloat l = true) →
      ∃ v1 added, parse2ndLoop parseFloat v (body ++ tail) = parse2ndLoop parseFloat v1 tail ∧
        v1.segments = v.segments ++ added ∧
        ∀ line ∈ body, strings.HasPrefix line "#".toList = false → ∃ s ∈ added, s.uri = line := by
  intro body
  induction body with
  | nil =>
    intro v _
    exact ⟨v, [], rfl, by simp, by simp⟩
  | cons l rest ih =>
    intro v hall
    obtain ⟨hend, hwf⟩ := hall l (by simp)
    have hrest : ∀ l2 ∈ rest, strings.HasPrefix l2 "#EXT-X-ENDLIST".toList = false ∧
        directiveWellFormed parseFloat l2 = true := fun l2 h2 => hall l2 (by simp [h2])
    obtain ⟨v2, hv2⟩ := parse2ndLine_wellFormed parseFloat v l hwf hend
    obtain ⟨v1, added, hloop, hsegs, hmem⟩ := ih v2 hrest
    have hstep : parse2ndLoop parseFloat v (l :: rest ++ tail) =
        parse2ndLoop parseFloat v1 tail := by
      rw [List.cons_append, parse2ndLoop, hv2]
      exact hloop
    cases hhash : strings.HasPrefix l "#".toList with
    | true =>
      have hkeep := (parse2ndLine_hash parseFloat v l hhash).1 v2 hv2
      refine ⟨v1, added, hstep, by rw [hsegs, hkeep], ?_⟩
      intro line hline hnot
      rcases List.mem_cons.mp hline with heq | hin
      · rw [heq, hhash] at hnot
        cases hnot
      · exact hmem line hin hnot
    | false =>
      have huri := parse2ndLine_uri parseFloat v l hhash
      rw [hv2] at huri
      have hv2eq := lineOutcome.next.inj huri
      have hseg2 : v2.segments =
          v.segments ++ [{ duration := v.segmentDuration, uri := l, no := v.no }] := by
        rw [hv2eq]
      refine ⟨v1, { duration := v.segmentDuration, uri := l, no := v.no } :: added, hstep,
        by rw [hsegs, hseg2]; simp, ?_⟩
      intro line hline hnot
      rcases List.mem_cons.mp hline with heq | hin
      · exact ⟨_, List.mem_cons_self _ _, heq.symm⟩
      · obtain ⟨s1, hs1, hs1uri⟩ := hmem line hin hnot
        exact ⟨s1, List.mem_cons_of_mem _ hs1, hs1uri⟩

theorem parse2nd_with_segment {F : Type} (parseFloat : Str → Except GoError F) (zero : F)
    (body tail : List Str) (line : Str) (hline : line ∈ body)
    (hnot : strings.HasPrefix line "#".toList = false)
    (hbody : ∀ l ∈ body, strings.HasPrefix l "#EXT-X-ENDLIST".toList = false ∧
      directiveWellFormed parseFloat l = true)
    (htail : tail = [] ∨
      ∃ t ts, tail = t :: ts ∧ strings.HasPrefix t "#EXT-X-ENDLIST".toList = true) :
    ∃ p, parse2nd parseFloat zero (body ++ tail) = .ok p ∧ ∃ s ∈ p.segments, s.uri = line := by
  obtain ⟨v1, added, hloop, hsegs, hmem⟩ := parse2ndLoop_body parseFloat tail body
    { mediaSequence := 0, targetDuration := 0, no := 0, segmentDuration := zero, end_ := false,
      segments := [] } hbody
  obtain ⟨s1, hs1, hs1uri⟩ := hmem line hline hnot
  have htl : parse2ndLoop parseFloat v1 tail = .ok v1 := by
    rcases htail with rfl | ⟨t, ts, rfl, ht⟩
    · rfl
    · rw [parse2ndLoop, parse2ndLine_endlist parseFloat v1 t ht]
  have hin : s1 ∈ v1.segments := by
    rw [hsegs]
    simpa using hs1
  have hne : ¬ v1.segments.length = 0 := by
    intro h0
    rw [List.length_eq_zero] at h0
    rw [h0] at hin
    simp at hin
  refine ⟨{ sequence := v1.mediaSequence, targetDuration := v1.targetDuration, end_ := v1.end_,
            segments := v1.segments, payload := [] }, ?_, s1, hin, hs1uri⟩
  simp only [parse2nd, hloop, htl]
  rw [if_neg hne]

/-- C4 as amended: a manifest in which every line begins with `#` (directives and comments
only) makes `parse2nd` return an error and no snapshot, whether or not its directives are
well-formed.  Blank lines do count as segment lines: whenever a line that does not begin
with `#`, a blank line included, stands among the lines before the first line beginning with
`#EXT-X-ENDLIST` (or anywhere, if there is no such line) and the directives among these lines
are well-formed, `parse2nd` returns a snapshot, and the snapshot has a segment whose URI is
that line; for an empty line, the empty URI. -/
theorem parse2nd_no_segment {F : Type} (parseFloat : Str → Except GoError F) (zero : F) :
    (∀ lines : List Str, (∀ line ∈ lines, strings.HasPrefix line "#".toList = true) →
      ∃ e, parse2nd parseFloat zero lines = .error e) ∧
    (∀ (body tail : List Str) (line : Str), line ∈ body →
      strings.HasPrefix line "#".toList = false →
      (∀ l ∈ body, strings.HasPrefix l "#EXT-X-ENDLIST".toList = false ∧
        directiveWellFormed parseFloat l = true) →
      (tail = [] ∨ ∃ t ts, tail = t :: ts ∧ strings.HasPrefix t "#EXT-X-ENDLIST".toList = true) →
      ∃ p, parse2nd parseFloat zero (body ++ tail) = .ok p ∧ ∃ s ∈ p.segments, s.uri = line) ∧
    (∀ (body tail : List Str), ([] : Str) ∈ body →
      (∀ l ∈ body, strings.HasPrefix l "#EXT-X-ENDLIST".toList = false ∧
        directiveWellFormed parseFloat l = true) →
      (tail = [] ∨ ∃ t ts, tail = t :: ts ∧ strings.HasPrefix t "#EXT-X-ENDLIST".toList = true) →
      ∃ p, parse2nd parseFloat zero (body ++ tail) = .ok p ∧ ∃ s ∈ p.segments, s.uri = []) :=
  ⟨fun lines h => parse2nd_all_hash parseFloat zero lines h,
   fun body tail line hline hnot hbody htail =>
     parse2nd_with_segment parseFloat zero body tail line hline hnot hbody htail,
   fun body tail hline hbody htail =>
     parse2nd_with_segment parseFloat zero body tail [] hline rfl hbody htail⟩

/-- Witness of `parse2nd_no_segment`: directives and an end-of-list line give an error; the
same manifest with a blank line before the end-of-list line, and a malformed line after it,
gives a snapshot with a segment whose URI is empty. -/
theorem parse2nd_no_segment_witness :
    (∃ e, parse2nd decimalValue (0, 0)
      ["#EXTM3U".toList, "#EXT-X-MEDIA-SEQUENCE:5".toList, "#EXT-X-ENDLIST".toList] = .error e) ∧
    (∃ p, parse2nd decimalValue (0, 0)
      (["#EXTM3U".toList, "#EXT-X-MEDIA-SEQUENCE:5".toList, []] ++
        ["#EXT-X-ENDLIST".toList, "#EXTINF:bad".toList]) = .ok p ∧
      ∃ s ∈ p.segments, s.uri = []) :=
  ⟨(parse2nd_no_segment decimalValue (0, 0)).1 _ (by decide),
   (parse2nd_no_segment decimalValue (0, 0)).2.2
     ["#EXTM3U".toList, "#EXT-X-MEDIA-SEQUENCE:5".toList, []]
     ["#EXT-X-ENDLIST".toList, "#EXTINF:bad".toList] (by decide) (by decide)
     (Or.inr ⟨_, _, rfl, by decide⟩)⟩

/-! ## C5: the end-of-list directive -/

/-- C5 at `endlistManifest`: `parse2nd` succeeds, the segments are those of the lines before
`#EXT-X-ENDLIST` and the malformed line after it is ignored, but the end flag of the snapshot
is false: the directive leaves the loop by `break` and never assigns the variable `end`. -/
theorem parse2nd_endlist_flag :
    parse2nd decimalValue (0, 0) endlistManifest =
      .ok { sequence := 5, targetDuration := 0, end_ := false, payload := [],
            segments := [{ duration := (6, 0), uri := "seg5.ts".toList, no := 5 }] } := by
  decide

theorem parse2ndLine_end {F : Type} (parseFloat : Str → Except GoError F) (v : parseVars F)
    (line : Str) :
    (∀ v1, parse2ndLine parseFloat v line = .next v1 → v1.end_ = v.end_) ∧
    (∀ v1, parse2ndLine parseFloat v line = .break_ v1 → v1.end_ = v.end_) := by
  constructor
  all_goals
    intro v1 hv
    unfold parse2ndLine at hv
    repeat' (split at hv)
    all_goals first | (cases hv; rfl) | cases hv

theorem parse2ndLoop_end {F : Type} (parseFloat : Str → Except GoError F) :
    ∀ (lines : List Str) (v r : parseVars F),
      parse2ndLoop parseFloat v lines = .ok r → r.end_ = v.end_ := by
  intro lines
  induction lines with
  | nil =>
    intro v r h
    simp only [parse2ndLoop, Except.ok.injEq] at h
    rw [h]
  | cons line rest ih =>
    intro v r h
    have hl := parse2ndLine_end parseFloat v line
    rw [parse2ndLoop] at h
    split at h
    · cases h
    · next v1 hv1 =>
      simp only [Except.ok.injEq] at h
      rw [← h]
      exact hl.2 v1 hv1
    · next v1 hv1 =>
      rw [ih v1 r h]
      exact hl.1 v1 hv1

/-- No manifest makes `parse2nd` return a snapshot whose end flag is true. -/
theorem parse2nd_end_false {F : Type} (parseFloat : Str → Except GoError F) (zero : F)
    (lines : List Str) (p : playlist F) (h : parse2nd parseFloat zero lines = .ok p) :
    p.end_ = false := by
  unfold parse2nd at h
  split at h
  · cases h
  · next r hr =>
    have hend := parse2ndLoop_end parseFloat lines _ r hr
    split at h
    · cases h
    · simp only [Except.ok.injEq] at h
      rw [← h]
      exact hend

/-! ## C6: a poll cycle whose manifest has not changed -/

/-- C6 at two cycles that read the same manifest.  The first cycle (no prior snapshot)
dispatches both segments and arms the timer with 6 s.  In the second the new snapshot is
structurally identical to the prior one, yet the controller renames the temporary file to
`out/playlist_2.m3u8`, sends both segments again, advances the cycle counter to 3 and arms the
timer with 3 s: `newPlaylist == prevPlaylist` compares two pointers, and the pointer
`parse2nd` returns is new in every cycle. -/
theorem pollCycle_unchanged_manifest :
    pollCycle decimalValue (0, 0) "out".toList examplePlaylistURI
        { count := 1, prevPlaylist := none, heap := [] } exampleCycleEnv =
      .next { count := 2, prevPlaylist := some 0, heap := [exampleSnapshot] }
        ([.rename "out/playlist123".toList "out/playlist_1.m3u8".toList, .writeTiming] ++
          exampleSends ++ [.newTimer 6000000000]) ∧
    pollCycle decimalValue (0, 0) "out".toList examplePlaylistURI
        { count := 2, prevPlaylist := some 0, heap := [exampleSnapshot] } exampleCycleEnv =
      .next { count := 3, prevPlaylist := some 1, heap := [exampleSnapshot, exampleSnapshot] }
        ([.rename "out/playlist123".toList "out/playlist_2.m3u8".toList, .writeTiming] ++
          exampleSends ++ [.newTimer 3000000000]) := by
  constructor <;> decide

/-- Whatever the manifest, a cycle with a prior snapshot never takes the branch for an
unchanged playlist: if it reaches the end of the loop body or a `continue`, it has renamed
the file, sent every segment of the new snapshot, advanced the counter and armed the timer
with half the target duration. -/
theorem pollCycle_never_unchanged {F : Type} (parseFloat : Str → Except GoError F) (zero : F)
    (outputDir : Str) (uri : url.URL) (st st1 : controllerState F) (env : cycleEnv)
    (effects : List (effect F)) (a : Nat) (hprev : st.prevPlaylist = some a)
    (ha : a < st.heap.length)
    (h : pollCycle parseFloat zero outputDir uri st env = .next st1 effects) :
    st1.count = wrapInt (st.count + 1) ∧
    ∃ p tmp u, st1.heap = st.heap ++ [p] ∧ st1.prevPlaylist = some st.heap.length ∧
      effects = [.rename tmp u, .writeTiming] ++ p.segments.map .send ++
        [.newTimer ((secondsDuration p.targetDuration).tdiv 2)] := by
  have hne : ¬ (st.prevPlaylist ≠ none ∧ some st.heap.length = st.prevPlaylist) := by
    rw [hprev]
    simp only [ne_eq, Option.some.injEq, not_and]
    intro _ heq
    omega
  have hsome : st.prevPlaylist ≠ none := by rw [hprev]; simp
  unfold pollCycle at h
  simp only [hne, if_false, hsome, if_true] at h
  repeat' (split at h)
  all_goals try cases h
  all_goals exact ⟨rfl, _, _, _, rfl, rfl, rfl⟩

/-! ## C7: how the worker classifies a failed request -/

theorem runLoop_cons {F : Type} (outputDir : Str) (cnt : Int) (seg : segment F) (env : segmentEnv)
    (rest : List (segment F × segmentEnv)) (h : cnt ≤ 5) :
    runLoop outputDir cnt ((seg, env) :: rest) =
      handleSegment outputDir cnt seg env ::
        (if (handleSegment outputDir cnt seg env).returns then []
         else runLoop outputDir (handleSegment outputDir cnt seg env).consecutiveErrCount rest) := by
  have hle : ¬ cnt > errMax := by unfold errMax; omega
  rw [runLoop]
  simp only [hle, if_false]

theorem handleSegment_timeout {F : Type} (outputDir : Str) (cnt : Int) (seg : segment F)
    (env : segmentEnv) (u : url.URL) (msg : Str) (hu : url.Parse seg.uri = .ok u)
    (hnet : env.net = .timeout msg) :
    handleSegment outputDir cnt seg env =
      { reports := [⟨seg.no, some .ErrSegmentDownloadTimeout⟩], files := [],
        consecutiveErrCount := cnt + 1, returns := false } := by
  simp [handleSegment, client.get, hu, hnet, errors.AsURLError]

theorem handleSegment_transportError {F : Type} (outputDir : Str) (cnt : Int) (seg : segment F)
    (env : segmentEnv) (u : url.URL) (msg : Str) (hu : url.Parse seg.uri = .ok u)
    (hnet : env.net = .transportError msg) :
    handleSegment outputDir cnt seg env =
      getFailed seg cnt (.wrapError "httpClient.Do failed : ".toList (.urlError false msg)) := by
  simp [handleSegment, client.get, hu, hnet, errors.AsURLError]

theorem handleSegment_clientFactor {F : Type} (outputDir : Str) (cnt : Int) (seg : segment F)
    (env : segmentEnv) (u : url.URL) (code : Int) (status body : Str)
    (hu : url.Parse seg.uri = .ok u) (hnet : env.net = .response code status body)
    (hcode : code = 400 ∨ code = 402 ∨ (404 ≤ code ∧ code ≤ 499)) :
    handleSegment outputDir cnt seg env =
      { reports := [⟨seg.no, some (.wrapError ("statusCode: ".toList ++ status ++ " : ".toList)
          .ErrSegmentDownloadClientFactor)⟩], files := [],
        consecutiveErrCount := cnt + 1, returns := false } := by
  have h1 : code < 200 ∨ code ≥ 400 := by omega
  have h2 : ¬ (code = 401 ∨ code = 403) := by omega
  have h3 : (code ≥ 404 ∧ code ≤ 499) ∨ code = 400 ∨ code = 402 := by omega
  simp [handleSegment, client.get, hu, hnet, errors.AsURLError, h1, h2, h3]

theorem handleSegment_unauthorized {F : Type} (outputDir : Str) (cnt : Int) (seg : segment F)
    (env : segmentEnv) (u : url.URL) (code : Int) (status body : Str)
    (hu : url.Parse seg.uri = .ok u) (hnet : env.net = .response code status body)
    (hcode : code = 401 ∨ code = 403) :
    handleSegment outputDir cnt seg env =
      { reports := [⟨seg.no, some (.errorString ("get failed ".toList ++ status))⟩], files := [],
        consecutiveErrCount := cnt, returns := true } := by
  have h1 : code < 200 ∨ code ≥ 400 := by omega
  simp [handleSegment, client.get, hu, hnet, errors.AsURLError, h1, hcode]

theorem handleSegment_serverError {F : Type} (outputDir : Str) (cnt : Int) (seg : segment F)
    (env : segmentEnv) (u : url.URL) (code : Int) (status body : Str)
    (hu : url.Parse seg.uri = .ok u) (hnet : env.net = .response code status body)
    (hcode : 500 ≤ code ∧ code ≤ 599) :
    handleSegment outputDir cnt seg env =
      { reports := [⟨seg.no, some (.errorString
          ("get failed ".toList ++ status ++ ", ".toList ++ body))⟩], files := [],
        consecutiveErrCount := cnt, returns := true } := by
  have h1 : code < 200 ∨ code ≥ 400 := by omega
  have h2 : ¬ (code = 401 ∨ code = 403) := by omega
  have h3 : ¬ ((code ≥ 404 ∧ code ≤ 499) ∨ code = 400 ∨ code = 402) := by omega
  have h4 : code ≥ 500 ∧ code ≤ 599 := by omega
  simp [handleSegment, client.get, hu, hnet, errors.AsURLError, h1, h2, h3, h4]

theorem handleSegment_failed_reports {F : Type} (outputDir : Str) (cnt : Int) (seg : segment F)
    (env : segmentEnv) (resp : Option Response) (err : GoError)
    (hget : client.get seg.uri env.net = .failed resp err) :
    ∃ e, (handleSegment outputDir cnt seg env).reports = [⟨seg.no, some e⟩] := by
  simp only [handleSegment, hget, getFailed]
  repeat' split
  all_goals exact ⟨_, rfl⟩

/-- C7: a segment the worker has received (so the counter was at most 5) whose request did
not succeed is reported once, under its own sequence number.  When the request could be
built: a transport timeout is reported as `ErrSegmentDownloadTimeout`, and status 400, 402 or
404..499 as an error wrapping `ErrSegmentDownloadClientFactor`; in both cases the pass ends by
`continue`: the worker goes on with the rest of the queue, the counter one higher.  Status
401, 403 or 500..599 and any other transport error are reported as an error matching neither
sentinel (for 5xx its text ends with the response body), and the worker returns: nothing of
the rest of the queue is received. -/
theorem handleSegment_failure_spec {F : Type} (outputDir : Str) (cnt : Int) (seg : segment F)
    (env : segmentEnv) (rest : List (segment F × segmentEnv)) (hcnt : cnt ≤ 5) :
    (∀ resp err, client.get seg.uri env.net = .failed resp err →
      ∃ e, (handleSegment outputDir cnt seg env).reports = [⟨seg.no, some e⟩]) ∧
    (∀ u msg, url.Parse seg.uri = .ok u → env.net = .timeout msg →
      (handleSegment outputDir cnt seg env).reports = [⟨seg.no, some .ErrSegmentDownloadTimeout⟩] ∧
      errors.Is .ErrSegmentDownloadTimeout .ErrSegmentDownloadTimeout = true ∧
      runLoop outputDir cnt ((seg, env) :: rest) =
        handleSegment outputDir cnt seg env :: runLoop outputDir (cnt + 1) rest) ∧
    (∀ u code status body, url.Parse seg.uri = .ok u → env.net = .response code status body →
      (code = 400 ∨ code = 402 ∨ (404 ≤ code ∧ code ≤ 499)) →
      ∃ e, (handleSegment outputDir cnt seg env).reports = [⟨seg.no, some e⟩] ∧
        errors.Is e .ErrSegmentDownloadClientFactor = true ∧
        runLoop outputDir cnt ((seg, env) :: rest) =
          handleSegment outputDir cnt seg env :: runLoop outputDir (cnt + 1) rest) ∧
    (∀ u code status body, url.Parse seg.uri = .ok u → env.net = .response code status body →
      (code = 401 ∨ code = 403 ∨ (500 ≤ code ∧ code ≤ 599)) →
      ∃ e, (handleSegment outputDir cnt seg env).reports = [⟨seg.no, some e⟩] ∧
        errors.Is e .ErrSegmentDownloadTimeout = false ∧
        errors.Is e .ErrSegmentDownloadClientFactor = false ∧
        (500 ≤ code → e.Error = "get failed ".toList ++ status ++ ", ".toList ++ body) ∧
        runLoop outputDir cnt ((seg, env) :: rest) = [handleSegment outputDir cnt seg env]) ∧
    (∀ u msg, url.Parse seg.uri = .ok u → env.net = .transportError msg →
      ∃ e, (handleSegment outputDir cnt seg env).reports = [⟨seg.no, some e⟩] ∧
        errors.Is e .ErrSegmentDownloadTimeout = false ∧
        errors.Is e .ErrSegmentDownloadClientFactor = false ∧
        runLoop outputDir cnt ((seg, env) :: rest) = [handleSegment outputDir cnt seg env]) := by
  refine ⟨fun resp err h => handleSegment_failed_reports outputDir cnt seg env resp err h,
    ?_, ?_, ?_, ?_⟩
  · intro u msg hu hnet
    have h := handleSegment_timeout outputDir cnt seg env u msg hu hnet
    refine ⟨by rw [h], by decide, ?_⟩
    rw [runLoop_cons outputDir cnt seg env rest hcnt, h]
    simp
  · intro u code status body hu hnet hcode
    have h := handleSegment_clientFactor outputDir cnt seg env u code status body hu hnet hcode
    refine ⟨_, by rw [h], ?_, ?_⟩
    · simp [errors.Is]
    · rw [runLoop_cons outputDir cnt seg env rest hcnt, h]
      simp
  · intro u code status body hu hnet hcode
    by_cases h401 : code = 401 ∨ code = 403
    · have h := handleSegment_unauthorized outputDir cnt seg env u code status body hu hnet h401
      refine ⟨_, by rw [h], by simp [errors.Is], by simp [errors.Is], ?_, ?_⟩
      · intro h500; omega
      · rw [runLoop_cons outputDir cnt seg env rest hcnt, h]
        simp
    · have h5 : 500 ≤ code ∧ code ≤ 599 := by omega
      have h := handleSegment_serverError outputDir cnt seg env u code status body hu hnet h5
      refine ⟨_, by rw [h], by simp [errors.Is], by simp [errors.Is], ?_, ?_⟩
      · intro _; simp [GoError.Error]
      · rw [runLoop_cons outputDir cnt seg env rest hcnt, h]
        simp
  · intro u msg hu hnet
    have h := handleSegment_transportError outputDir cnt seg env u msg hu hnet
    refine ⟨_, by rw [h, getFailed], by simp [errors.Is], by simp [errors.Is], ?_⟩
    rw [runLoop_cons outputDir cnt seg env rest hcnt, h]
    simp [getFailed]

/-- Witness of `handleSegment_failure_spec`: status 404 for `exampleSegment`, counter 0. -/
theorem handleSegment_failure_spec_witness :
    (url.Parse exampleSegment.uri =
        .ok { Scheme := "http".toList, Host := "h".toList, Path := "/a/seg7.ts".toList } ∧
      (0 : Int) ≤ 5) ∧
    ∃ e, (handleSegment "out".toList 0 exampleSegment notFoundEnv).reports = [⟨7, some e⟩] ∧
      errors.Is e .ErrSegmentDownloadClientFactor = true ∧
      runLoop "out".toList 0 [(exampleSegment, notFoundEnv)] =
        handleSegment "out".toList 0 exampleSegment notFoundEnv ::
          runLoop "out".toList (0 + 1) ([] : List (segment Unit × segmentEnv)) :=
  ⟨by decide,
   (handleSegment_failure_spec "out".toList 0 exampleSegment notFoundEnv [] (by decide)).2.2.1
      { Scheme := "http".toList, Host := "h".toList, Path := "/a/seg7.ts".toList }
      404 "404 Not Found".toList [] (by decide) rfl (by decide)⟩

/-! ## C8: a successful download -/

theorem get_ok_parse (uri : Str) (net : doResult) (resp : Response)
    (h : client.get uri net = .ok resp) :
    (∃ u, url.Parse uri = .ok u) ∧ net = .response resp.StatusCode resp.Status resp.Body := by
  unfold client.get at h
  split at h
  · cases h
  · next u hu =>
    refine ⟨⟨u, hu⟩, ?_⟩
    split at h
    · cases h
    · cases h
    · split at h
      · cases h
      · cases h
        rfl

/-- C8: when the GET of a segment returns a response with body `B` and no error (`client.get`
does so for every 2xx status) and file creation and copying succeed, the worker creates the
file `outputDir/b`, `b` the final component of the path of the segment URI, writes exactly `B`
to it, reports `(no, nil)` once, and leaves the counter at 0; the pass ends without `return`. -/
theorem handleSegment_success {F : Type} (outputDir : Str) (cnt : Int) (seg : segment F)
    (env : segmentEnv) (resp : Response) (hget : client.get seg.uri env.net = .ok resp)
    (hcreate : env.create = none) (hcopy : env.copy = none) :
    ∃ u, url.Parse seg.uri = .ok u ∧
      handleSegment outputDir cnt seg env =
        { reports := [⟨seg.no, none⟩],
          files := [.create (outputDir ++ "/".toList ++ filepath.Base u.Path),
                    .write (outputDir ++ "/".toList ++ filepath.Base u.Path) resp.Body],
          consecutiveErrCount := 0, returns := false } := by
  obtain ⟨⟨u, hu⟩, _⟩ := get_ok_parse seg.uri env.net resp hget
  refine ⟨u, hu, ?_⟩
  simp [handleSegment, hget, persist, uri2SegmentPath, uri2basename, hu, hcreate, hcopy]

/-- Witness of `handleSegment_success`: the segment and the body of `TestSegmentDownloer`. -/
theorem handleSegment_success_witness :
    (client.get testSegment.uri testEnv.net = .ok ⟨200, "200 OK".toList, "a_ts_file_binary".toList⟩ ∧
      testEnv.create = none ∧ testEnv.copy = none) ∧
    handleSegment "restResult".toList 0 testSegment testEnv =
      { reports := [⟨65535, none⟩],
        files := [.create "restResult/stream_65535.ts".toList,
                  .write "restResult/stream_65535.ts".toList "a_ts_file_binary".toList],
        consecutiveErrCount := 0, returns := false } ∧
    ∃ u, url.Parse testSegment.uri = .ok u ∧
      handleSegment "restResult".toList 0 testSegment testEnv =
        { reports := [⟨testSegment.no, none⟩],
          files := [.create ("restResult".toList ++ "/".toList ++ filepath.Base u.Path),
                    .write ("restResult".toList ++ "/".toList ++ filepath.Base u.Path)
                      (Response.mk 200 "200 OK".toList "a_ts_file_binary".toList).Body],
          consecutiveErrCount := 0, returns := false } :=
  ⟨by decide, by decide,
   handleSegment_success "restResult".toList 0 testSegment testEnv
     ⟨200, "200 OK".toList, "a_ts_file_binary".toList⟩ (by decide) (by decide) (by decide)⟩

theorem get_2xx (uri : Str) (u : url.URL) (code : Int) (status body : Str)
    (hu : url.Parse uri = .ok u) (hcode : 200 ≤ code ∧ code ≤ 299) :
    client.get uri (.response code status body) = .ok ⟨code, status, body⟩ := by
  have h1 : ¬ (code < 200 ∨ code ≥ 400) := by omega
  simp [client.get, hu, h1]

/-! ## C9: one report for each segment -/

/-- C9 at a failing copy and at a failing file creation: the worker calls `onDownload` twice,
respectively three times, for the one segment, the last call reporting success; the failed
persistence steps are not followed by `continue`. -/
theorem handleSegment_reports_twice :
    (handleSegment "out".toList 0 exampleSegment copyFailEnv).reports =
      [⟨7, some (.wrapError "os.Copy failed, seg.uri:http://h/a/seg7.ts, +".toList
          (.errorString "unexpected EOF".toList))⟩,
       ⟨7, none⟩] ∧
    (handleSegment "out".toList 0 exampleSegment createFailEnv).reports =
      [⟨7, some (.wrapError "os.Create failed, seg.uri:http://h/a/seg7.ts, +".toList
          (.errorString "open out/seg7.ts: no such file or directory".toList))⟩,
       ⟨7, some (.wrapError "os.Copy failed, seg.uri:http://h/a/seg7.ts, +".toList
          (.errorString "invalid argument".toList))⟩,
       ⟨7, none⟩] := by
  constructor <;> decide

/-! ## C10: the error budget of the worker -/

theorem handleSegment_retryable {F : Type} (outputDir : Str) (cnt : Int)
    (x : segment F × segmentEnv) (h : retryableFailure x) :
    (handleSegment outputDir cnt x.1 x.2).consecutiveErrCount = cnt + 1 ∧
    (handleSegment outputDir cnt x.1 x.2).returns = false := by
  obtain ⟨⟨u, hu⟩, ⟨msg, hnet⟩ | ⟨code, status, body, hnet, hcode⟩⟩ := h
  · rw [handleSegment_timeout outputDir cnt x.1 x.2 u msg hu hnet]
    exact ⟨rfl, rfl⟩
  · rw [handleSegment_clientFactor outputDir cnt x.1 x.2 u code status body hu hnet hcode]
    exact ⟨rfl, rfl⟩

theorem persist_outcome {F : Type} (outputDir : Str) (cnt : Int) (seg : segment F)
    (env : segmentEnv) (resp : Response) :
    (persist outputDir seg cnt env resp).consecutiveErrCount = 0 ∧
    (persist outputDir seg cnt env resp).returns = false ∧
    (persist outputDir seg cnt env resp).reports.getLast? = some ⟨seg.no, none⟩ := by
  refine ⟨rfl, rfl, ?_⟩
  simp [persist]

/-- Every pass of the worker loop is of one of three kinds. -/
theorem handleSegment_kinds {F : Type} (outputDir : Str) (cnt : Int) (seg : segment F)
    (env : segmentEnv) :
    ((handleSegment outputDir cnt seg env).consecutiveErrCount = cnt + 1 ∧
      (handleSegment outputDir cnt seg env).returns = false ∧
      ∃ e, (handleSegment outputDir cnt seg env).reports = [⟨seg.no, some e⟩] ∧
        (errors.Is e .ErrSegmentDownloadTimeout = true ∨
          errors.Is e .ErrSegmentDownloadClientFactor = true)) ∨
    ((handleSegment outputDir cnt seg env).consecutiveErrCount = cnt ∧
      (handleSegment outputDir cnt seg env).returns = true ∧
      ∃ e, (handleSegment outputDir cnt seg env).reports = [⟨seg.no, some e⟩] ∧
        errors.Is e .ErrSegmentDownloadTimeout = false ∧
        errors.Is e .ErrSegmentDownloadClientFactor = false) ∨
    ((handleSegment outputDir cnt seg env).consecutiveErrCount = 0 ∧
      (handleSegment outputDir cnt seg env).returns = false ∧
      (handleSegment outputDir cnt seg env).reports.getLast? = some ⟨seg.no, none⟩) := by
  unfold handleSegment
  cases hget : client.get seg.uri env.net with
  | ok resp =>
    right; right
    exact persist_outcome outputDir cnt seg env resp
  | failed resp err =>
    have herr : (∃ t msg wmsg, err = .wrapError wmsg (.urlError t msg)) ∨
        (∃ msg, err = .errorString msg ∧ resp ≠ none) := by
      unfold client.get at hget
      repeat' (split at hget)
      all_goals cases hget
      all_goals first
        | exact Or.inl ⟨_, _, _, rfl⟩
        | exact Or.inr ⟨_, rfl, by simp⟩
    rcases herr with ⟨t, msg, wmsg, rfl⟩ | ⟨msg, rfl, hresp⟩
    · cases t
      · right; left
        simp [errors.AsURLError, getFailed, errors.Is]
      · left
        simp [errors.AsURLError, errors.Is]
    · cases resp with
      | none => exact absurd rfl hresp
      | some r =>
        simp only [errors.AsURLError]
        split
        · right; left
          simp [errors.Is]
        · split
          · left
            simp [errors.Is]
          · split
            · right; left
              simp [errors.Is]
            · right; left
              simp [getFailed, errors.Is]

theorem runLoop_over_budget {F : Type} (outputDir : Str) (cnt : Int)
    (queue : List (segment F × segmentEnv)) (h : cnt > 5) : runLoop outputDir cnt queue = [] := by
  have hgt : cnt > errMax := by unfold errMax; omega
  unfold runLoop
  simp only [hgt, if_true]

theorem runLoop_failures {F : Type} (outputDir : Str) (rest : List (segment F × segmentEnv)) :
    ∀ (fails : List (segment F × segmentEnv)) (cnt : Int), 0 ≤ cnt → cnt ≤ 6 →
      (fails.length : Int) = 6 - cnt → (∀ x ∈ fails, retryableFailure x) →
      runLoop outputDir cnt (fails ++ rest) = runLoop outputDir cnt fails ∧
      (runLoop outputDir cnt fails).length = fails.length := by
  intro fails
  induction fails with
  | nil =>
    intro cnt _ _ hlen _
    have h6 : cnt > 5 := by simp at hlen; omega
    rw [List.nil_append, runLoop_over_budget outputDir cnt rest h6,
      runLoop_over_budget outputDir cnt [] h6]
    exact ⟨rfl, rfl⟩
  | cons x fs ih =>
    intro cnt h0 h6 hlen hall
    obtain ⟨seg, env⟩ := x
    have hle : cnt ≤ 5 := by simp at hlen; omega
    obtain ⟨hc, hr⟩ := handleSegment_retryable outputDir cnt (seg, env) (hall _ (by simp))
    simp only at hc hr
    obtain ⟨ih1, ih2⟩ := ih (cnt + 1) (by omega) (by omega)
      (by simp at hlen; omega) (fun y hy => hall y (by simp [hy]))
    rw [List.cons_append, runLoop_cons outputDir cnt seg env _ hle,
      runLoop_cons outputDir cnt seg env _ hle, hr, hc]
    simp only [Bool.false_eq_true, if_false, List.length_cons, ih1, ih2, and_self]

theorem runLoop_count_bound {F : Type} (outputDir : Str) :
    ∀ (queue : List (segment F × segmentEnv)) (cnt : Int), 0 ≤ cnt → cnt ≤ 6 →
      ∀ it ∈ runLoop outputDir cnt queue,
        0 ≤ it.consecutiveErrCount ∧ it.consecutiveErrCount ≤ 6 := by
  intro queue
  induction queue with
  | nil =>
    intro cnt _ _ it hit
    unfold runLoop at hit
    split at hit <;> simp at hit
  | cons x rest ih =>
    intro cnt h0 h6 it hit
    obtain ⟨seg, env⟩ := x
    by_cases hle : cnt ≤ 5
    · rw [runLoop_cons outputDir cnt seg env rest hle] at hit
      have hk := handleSegment_kinds outputDir cnt seg env
      have hb : 0 ≤ (handleSegment outputDir cnt seg env).consecutiveErrCount ∧
          (handleSegment outputDir cnt seg env).consecutiveErrCount ≤ 6 := by
        rcases hk with ⟨h1, _⟩ | ⟨h1, _⟩ | ⟨h1, _⟩ <;> omega
      rcases List.mem_cons.mp hit with heq | hmem
      · rw [heq]; exact hb
      · split at hmem
        · simp at hmem
        · exact ih _ hb.1 hb.2 it hmem
    · rw [runLoop_over_budget outputDir cnt _ (by omega)] at hit
      simp at hit

/-- C10: `segmentDownloader.Run` as a step function over the queue.  Every pass is a
retryable failure (timeout or client-factor status: the counter goes up by one and the loop
goes on), a fatal failure (the worker returns) or a success (the counter is set to 0 and the
loop goes on).  With the counter at most 5 the worker receives the next segment; above 5 it
returns without receiving any.  So after 6 consecutive retryable failures, counted from the
start or from the last success, the worker has made exactly those passes and receives
nothing of what remains queued; and at the end of every pass the counter is between 0 and 6. -/
theorem worker_error_budget {F : Type} (outputDir : Str) :
    (∀ (cnt : Int) (seg : segment F) (env : segmentEnv),
      ((handleSegment outputDir cnt seg env).consecutiveErrCount = cnt + 1 ∧
        (handleSegment outputDir cnt seg env).returns = false ∧
        ∃ e, (handleSegment outputDir cnt seg env).reports = [⟨seg.no, some e⟩] ∧
          (errors.Is e .ErrSegmentDownloadTimeout = true ∨
            errors.Is e .ErrSegmentDownloadClientFactor = true)) ∨
      ((handleSegment outputDir cnt seg env).consecutiveErrCount = cnt ∧
        (handleSegment outputDir cnt seg env).returns = true ∧
        ∃ e, (handleSegment outputDir cnt seg env).reports = [⟨seg.no, some e⟩] ∧
          errors.Is e .ErrSegmentDownloadTimeout = false ∧
          errors.Is e .ErrSegmentDownloadClientFactor = false) ∨
      ((handleSegment outputDir cnt seg env).consecutiveErrCount = 0 ∧
        (handleSegment outputDir cnt seg env).returns = false ∧
        (handleSegment outputDir cnt seg env).reports.getLast? = some ⟨seg.no, none⟩)) ∧
    (∀ (cnt : Int) (seg : segment F) (env : segmentEnv) (rest : List (segment F × segmentEnv)),
      cnt ≤ 5 →
      runLoop outputDir cnt ((seg, env) :: rest) =
        handleSegment outputDir cnt seg env ::
          (if (handleSegment outputDir cnt seg env).returns then []
           else runLoop outputDir (handleSegment outputDir cnt seg env).consecutiveErrCount rest)) ∧
    (∀ (cnt : Int) (queue : List (segment F × segmentEnv)), cnt > 5 →
      runLoop outputDir cnt queue = []) ∧
    (∀ (cnt : Int) (fails rest : List (segment F × segmentEnv)), 0 ≤ cnt → cnt ≤ 6 →
      (fails.length : Int) = 6 - cnt → (∀ x ∈ fails, retryableFailure x) →
      runLoop outputDir cnt (fails ++ rest) = runLoop outputDir cnt fails ∧
      (runLoop outputDir cnt fails).length = fails.length) ∧
    (∀ (fails rest : List (segment F × segmentEnv)), fails.length = 6 →
      (∀ x ∈ fails, retryableFailure x) →
      (segmentDownloader.Run outputDir (fails ++ rest)).length = 6) ∧
    (∀ (queue : List (segment F × segmentEnv)), ∀ it ∈ segmentDownloader.Run outputDir queue,
      0 ≤ it.consecutiveErrCount ∧ it.consecutiveErrCount ≤ 6) := by
  refine ⟨handleSegment_kinds outputDir, fun cnt seg env rest h => runLoop_cons outputDir cnt seg env rest h,
    fun cnt queue h => runLoop_over_budget outputDir cnt queue h,
    fun cnt fails rest h0 h6 hlen hall => runLoop_failures outputDir rest fails cnt h0 h6 hlen hall,
    ?_, fun queue => runLoop_count_bound outputDir queue 0 (by decide) (by decide)⟩
  intro fails rest hlen hall
  obtain ⟨h1, h2⟩ := runLoop_failures outputDir rest fails 0 (by decide) (by decide)
    (by rw [hlen]; rfl) hall
  unfold segmentDownloader.Run
  rw [h1, h2, hlen]

/-- Witness of `worker_error_budget`: of seven queued segments that all fail with status
404 the worker handles six, each pass raising the counter, and never receives the seventh. -/
theorem worker_error_budget_witness :
    (segmentDownloader.Run "out".toList sevenNotFound).map (fun it => it.consecutiveErrCount) =
        [1, 2, 3, 4, 5, 6] ∧
    (segmentDownloader.Run "out".toList
      (List.replicate 6 (exampleSegment, notFoundEnv) ++ [(exampleSegment, notFoundEnv)])).length = 6 :=
  ⟨by decide,
   (worker_error_budget "out".toList).2.2.2.2.1
     (List.replicate 6 (exampleSegment, notFoundEnv)) [(exampleSegment, notFoundEnv)] (by decide)
     (by
       intro x hx
       rw [List.eq_of_mem_replicate hx]
       exact ⟨⟨{ Scheme := "http".toList, Host := "h".toList, Path := "/a/seg7.ts".toList },
         by decide⟩, Or.inr ⟨404, "404 Not Found".toList, [], rfl, by decide⟩⟩)⟩

/-! ## C11: the table of `TestURI2basename` -/

/-- C11 fails as stated: for the two URIs of the table of `TestURI2basename` the function
`uri2basename` returns no error, but the basename is `.` for `http://localhost:8080` and
`playlist.m3u8` for `http://localhost/aaa/playlist.m3u8`, in neither case the empty string. -/
theorem uri2basename_table_counterexample :
    uri2basename "http://localhost:8080".toList = .ok ".".toList ∧
    uri2basename "http://localhost/aaa/playlist.m3u8".toList = .ok "playlist.m3u8".toList ∧
    uri2basename "http://localhost:8080".toList ≠ .ok [] ∧
    uri2basename "http://localhost/aaa/playlist.m3u8".toList ≠ .ok [] := by
  refine ⟨by decide, by decide, by decide, by decide⟩

/-- C11 as amended: for each URI of the table of `TestURI2basename` the function
`uri2basename` returns a nil error, and for `http://localhost/aaa/playlist.m3u8` the basename
is `playlist.m3u8`, the final component of the path, with which `uri2playlistPath` names the
playlist file `out/playlist_2.m3u8`. -/
theorem uri2basename_table :
    (∃ basename, uri2basename "http://localhost:8080".toList = .ok basename) ∧
    uri2basename "http://localhost/aaa/playlist.m3u8".toList = .ok "playlist.m3u8".toList ∧
    uri2playlistPath "http://localhost/aaa/playlist.m3u8".toList "out".toList 2 =
      .ok "out/playlist_2.m3u8".toList := by
  refine ⟨⟨".".toList, by decide⟩, by decide, by decide⟩

end HlsDownloader
